import Mathlib

/-!
# Verification of the JiraExporter core (`src/jira_client.py`)

A shallow embedding of the ADF→Markdown converter (`_process_adf_node`,
`_process_table_node`), the issue normalizer (`_process_issue`,
`_convert_adf_to_markdown`) and the pagination loop (`_fetch_issues_by_jql`)
of `JiraClient`, together with theorems settling the specification claims.

JSON values (Python objects deserialized from the API, and the ADF trees)
are modelled by the inductive type `JVal`.  Python operations that can raise
(`d.get` on a non-dict, `d[k]` on a missing key, iteration of a non-iterable,
`''.join` of non-strings, `in` on a non-container, `'#' * x` for non-integral
`x`) are modelled by functions into `Except PyErr _`; an `Except.error`
result corresponds to the Python call raising an exception.
-/

/-- A JSON value / Python object as handled by the client.  Python dicts are
modelled as association lists in insertion order; the dicts produced by JSON
deserialization have pairwise distinct keys, and lookup takes the first
match.  JSON numbers appearing in the modelled code paths are integers. -/
inductive JVal : Type where
  | null
  | bool (b : Bool)
  | num (n : Int)
  | str (s : String)
  | arr (items : List JVal)
  | obj (entries : List (String × JVal))
deriving Repr

/-- First-match lookup in a Python dict (association list). -/
def lookupStr : List (String × JVal) → String → Option JVal
  | [], _ => none
  | (k, v) :: rest, key => if k = key then some v else lookupStr rest key

/-- Python `d.get(key, default)` on a value known to be a dict. -/
def getD (kvs : List (String × JVal)) (key : String) (d : JVal) : JVal :=
  (lookupStr kvs key).getD d

mutual
/-- Structural size of a `JVal`, used as the recursion fuel bound for the
converter (every child reachable by the converter has strictly smaller
size than its parent node). -/
def JVal.size : JVal → Nat
  | .null => 1
  | .bool _ => 1
  | .num _ => 1
  | .str _ => 1
  | .arr xs => 1 + sizeItems xs
  | .obj kvs => 1 + sizeEntries kvs

/-- Sum of sizes of the elements of a JSON array. -/
def sizeItems : List JVal → Nat
  | [] => 0
  | x :: xs => JVal.size x + sizeItems xs

/-- Sum of sizes of the values of a JSON object. -/
def sizeEntries : List (String × JVal) → Nat
  | [] => 0
  | kv :: rest => JVal.size kv.2 + sizeEntries rest
end

mutual
/-- Boolean structural equality of `JVal`s (decidable equality is derived
from it below; the automatic derivation is unavailable for this nested
inductive type). -/
def JVal.beq : JVal → JVal → Bool
  | .null, .null => true
  | .bool a, .bool b => a == b
  | .num a, .num b => a == b
  | .str a, .str b => a == b
  | .arr xs, .arr ys => beqItems xs ys
  | .obj es, .obj fs => beqEntries es fs
  | _, _ => false

/-- Pointwise `JVal.beq` on arrays. -/
def beqItems : List JVal → List JVal → Bool
  | [], [] => true
  | x :: xs, y :: ys => JVal.beq x y && beqItems xs ys
  | _, _ => false

/-- Pointwise key/value equality on object entry lists. -/
def beqEntries : List (String × JVal) → List (String × JVal) → Bool
  | [], [] => true
  | kv :: es, lw :: fs => kv.1 == lw.1 && JVal.beq kv.2 lw.2 && beqEntries es fs
  | _, _ => false
end

theorem JVal.beq_iff_eq :
    ∀ n : Nat, (∀ a b : JVal, JVal.size a ≤ n → (JVal.beq a b = true ↔ a = b)) ∧
      (∀ xs ys : List JVal, sizeItems xs ≤ n → (beqItems xs ys = true ↔ xs = ys)) ∧
      (∀ es fs : List (String × JVal), sizeEntries es ≤ n →
        (beqEntries es fs = true ↔ es = fs)) := by
  intro n
  induction n using Nat.strong_induction_on with
  | _ n ih =>
    have hval : ∀ a b : JVal, JVal.size a ≤ n → (JVal.beq a b = true ↔ a = b) := by
      intro a b ha
      cases a <;> cases b <;> simp_all [JVal.beq, JVal.size]
      case arr.arr xs ys =>
        have := (ih (n - 1) (by omega)).2.1 xs ys (by omega)
        simpa using this
      case obj.obj es fs =>
        have := (ih (n - 1) (by omega)).2.2 es fs (by omega)
        simpa using this
    have hitems : ∀ xs ys : List JVal, sizeItems xs ≤ n →
        (beqItems xs ys = true ↔ xs = ys) := by
      intro xs
      induction xs with
      | nil => intro ys _; cases ys <;> simp [beqItems]
      | cons x xs ihx =>
        intro ys hsz
        cases ys with
        | nil => simp [beqItems]
        | cons y ys =>
          simp only [sizeItems] at hsz
          have h1 : JVal.size x ≤ n := by omega
          have h2 : sizeItems xs ≤ n := by omega
          simp [beqItems, hval x y h1, ihx ys h2]
    have hentries : ∀ es fs : List (String × JVal), sizeEntries es ≤ n →
        (beqEntries es fs = true ↔ es = fs) := by
      intro es
      induction es with
      | nil => intro fs _; cases fs <;> simp [beqEntries]
      | cons kv es ihe =>
        obtain ⟨k1, v1⟩ := kv
        intro fs hsz
        cases fs with
        | nil => simp [beqEntries]
        | cons lw fs =>
          obtain ⟨k2, v2⟩ := lw
          simp only [sizeEntries] at hsz
          have h1 : JVal.size v1 ≤ n := by omega
          have h2 : sizeEntries es ≤ n := by omega
          simp [beqEntries, hval v1 v2 h1, ihe fs h2, and_assoc]
    exact ⟨hval, hitems, hentries⟩

instance : DecidableEq JVal := fun a b =>
  decidable_of_iff (JVal.beq a b = true)
    ((JVal.beq_iff_eq (JVal.size a)).1 a b le_rfl)

/-- The Python exceptions that the modelled code can raise.
`fuelExhausted` is not a Python exception: it is the sentinel of the
structural-recursion fuel of the converter and is proved unreachable for
fuel at least `JVal.size` of the node being converted. -/
inductive PyErr : Type where
  | attributeError
  | typeError
  | keyError
  | searchEndpointNotFound
  | httpError
  | fuelExhausted
deriving DecidableEq, Repr

deriving instance DecidableEq for Except

/-- Python truthiness of a value (`if x:`). -/
def truthy : JVal → Bool
  | .null => false
  | .bool b => b
  | .num n => n != 0
  | .str s => s != ""
  | .arr xs => !xs.isEmpty
  | .obj kvs => !kvs.isEmpty

/-- Python iteration (`for x in v`): lists yield their elements, strings
yield their characters as one-character strings, dicts yield their keys;
anything else raises `TypeError`. -/
def pyElems : JVal → Except PyErr (List JVal)
  | .arr xs => .ok xs
  | .str s => .ok (s.toList.map (fun c => .str (String.singleton c)))
  | .obj kvs => .ok (kvs.map (fun kv => .str kv.1))
  | _ => .error .typeError

/-- Python `v.get(key, default)`: raises `AttributeError` unless `v` is a
dict. -/
def pyGetD (v : JVal) (key : String) (d : JVal) : Except PyErr JVal :=
  match v with
  | .obj kvs => .ok (getD kvs key d)
  | _ => .error .attributeError

/-- Python subscription `v[key]` with a string key: `KeyError` when the key
is missing from a dict, `TypeError` when `v` is not a dict. -/
def pySubscr (v : JVal) (key : String) : Except PyErr JVal :=
  match v with
  | .obj kvs =>
    match lookupStr kvs key with
    | some w => .ok w
    | none => .error .keyError
  | _ => .error .typeError

/-- Python `key in v` for a string key: key test on dicts, membership on
lists, substring test on strings, `TypeError` otherwise. -/
def pyHasKey (v : JVal) (key : String) : Except PyErr Bool :=
  match v with
  | .obj kvs => .ok ((lookupStr kvs key).isSome)
  | .arr xs => .ok (xs.contains (.str key))
  | .str s => .ok (key = "" || (s.splitOn key).length ≥ 2)
  | _ => .error .typeError

/-- Python `''.join(vals)`: raises `TypeError` if any element is not a
string. -/
def pyJoin : List JVal → Except PyErr String
  | [] => .ok ""
  | .str s :: rest => (pyJoin rest).map (s ++ ·)
  | _ :: _ => .error .typeError

/-- `n` copies of `s` concatenated (Python `s * n` for a nonnegative int). -/
def strRepeat (s : String) : Nat → String
  | 0 => ""
  | n + 1 => s ++ strRepeat s n

/-- Python `s * v` for a string `s`: defined for ints (empty for
nonpositive counts) and bools (`True` counts as 1); raises `TypeError`
otherwise. -/
def pyStrMul (s : String) : JVal → Except PyErr String
  | .num n => .ok (strRepeat s n.toNat)
  | .bool b => .ok (if b then s else "")
  | _ => .error .typeError

/-- Characters stripped by Python `str.strip()` (the ASCII whitespace
characters; the modelled strings contain no other Unicode whitespace). -/
def pyWs (c : Char) : Bool :=
  c = ' ' || c = '\t' || c = '\n' || c = '\r' || c = '\x0b' || c = '\x0c'

/-- Python `s.strip()`.  Implemented on the character list so that it
reduces inside the kernel (`String.trim` of the library is equivalent on
the strings involved but is not kernel-reducible). -/
def pyStrip (s : String) : String :=
  ⟨((s.data.dropWhile pyWs).reverse.dropWhile pyWs).reverse⟩

/-- Python `s.replace('\n', ' ')` (single-character pattern and
replacement, hence a character-wise map). -/
def pyReplaceNl (s : String) : String :=
  ⟨s.data.map (fun c => if c = '\n' then ' ' else c)⟩

/-- Splitting a character list at newline characters, Python
`s.split('\n')` semantics (keeps empty fragments, at least one fragment). -/
def splitNlChars : List Char → List (List Char)
  | [] => [[]]
  | c :: cs =>
    match splitNlChars cs with
    | [] => [[]]
    | h :: t => if c = '\n' then [] :: h :: t else (c :: h) :: t

/-- Python `s.split('\n')`. -/
def pySplitNl (s : String) : List String :=
  (splitNlChars s.data).map (fun cs => ⟨cs⟩)

mutual
/-- Python `repr(v)`.  For strings this model always uses single quotes and
does not escape special characters; no modelled code path applies `repr` to
a string containing quote or backslash characters. -/
def pyRepr : JVal → String
  | .null => "None"
  | .bool b => if b then "True" else "False"
  | .num n => toString n
  | .str s => "'" ++ s ++ "'"
  | .arr xs => "[" ++ pyReprItems xs ++ "]"
  | .obj kvs => "\x7b" ++ pyReprEntries kvs ++ "\x7d"

/-- Comma-separated reprs of list elements. -/
def pyReprItems : List JVal → String
  | [] => ""
  | [x] => pyRepr x
  | x :: xs => pyRepr x ++ ", " ++ pyReprItems xs

/-- Comma-separated `key: value` reprs of dict entries. -/
def pyReprEntries : List (String × JVal) → String
  | [] => ""
  | [kv] => "'" ++ kv.1 ++ "': " ++ pyRepr kv.2
  | kv :: rest => "'" ++ kv.1 ++ "': " ++ pyRepr kv.2 ++ ", " ++ pyReprEntries rest
end

/-- Python `str(v)` as used by f-string interpolation. -/
def pyStr : JVal → String
  | .null => "None"
  | .bool b => if b then "True" else "False"
  | .num n => toString n
  | .str s => s
  | .arr xs => pyRepr (.arr xs)
  | .obj kvs => pyRepr (.obj kvs)

/-- One step of the mark loop in the `text` branch of `_process_adf_node`
(`jira_client.py` lines 464-480): wraps the current value in the Markdown
wrapper of the mark's `type`, leaving it unchanged for unrecognized mark
types.  F-string interpolation applies Python `str()` (`pyStr`) to the
current value; `mark.get('type')` raises `AttributeError` when the mark is
not a dict. -/
def applyMark (cur : JVal) (mark : JVal) : Except PyErr JVal := do
  let markType ← pyGetD mark "type" .null
  if markType = .str "strong" then pure (.str ("**" ++ pyStr cur ++ "**"))
  else if markType = .str "em" then pure (.str ("*" ++ pyStr cur ++ "*"))
  else if markType = .str "code" then pure (.str ("`" ++ pyStr cur ++ "`"))
  else if markType = .str "link" then do
    let mattrs ← pyGetD mark "attrs" (.obj [])
    let href ← pyGetD mattrs "href" (.str "")
    pure (.str ("[" ++ pyStr cur ++ "](" ++ pyStr href ++ ")"))
  else if markType = .str "strike" then pure (.str ("~~" ++ pyStr cur ++ "~~"))
  else pure cur

/-- The body of `JiraClient._process_adf_node` (`jira_client.py` lines
353-523), abstracted over the recursive call `rec` (with its `level` and
`list_index` arguments) and the call `tbl` to `_process_table_node`.  The
final `''.join(result)` of the Python code is `String.join` of the string
fragments; in the `text` and `emoji` branches the appended value can be an
arbitrary Python object, and a non-string one makes the join raise
`TypeError`. -/
def process_adf_step (rec : JVal → Nat → Option Nat → Except PyErr String)
    (tbl : JVal → Except PyErr String) (node : JVal) (level : Nat)
    (listIndex : Option Nat) : Except PyErr String :=
  match node with
  | .obj kvs =>
    let nodeType := getD kvs "type" (.str "")
    let content := getD kvs "content" (.arr [])
    let text := getD kvs "text" (.str "")
    let attrs := getD kvs "attrs" (.obj [])
    if nodeType = .str "doc" then do
      let cs ← pyElems content
      let parts ← cs.mapM (fun c => rec c level none)
      pure (String.join parts)
    else if nodeType = .str "paragraph" then do
      let cs ← pyElems content
      let parts ← cs.mapM (fun c => rec c level none)
      let ptext := String.join parts
      pure (if pyStrip ptext ≠ "" then ptext ++ "\n\n" else "")
    else if nodeType = .str "heading" then do
      let hl ← pyGetD attrs "level" (.num 1)
      let cs ← pyElems content
      let parts ← cs.mapM (fun c => rec c level none)
      let htext := String.join parts
      let hashes ← pyStrMul "#" hl
      pure (hashes ++ " " ++ htext ++ "\n\n")
    else if nodeType = .str "bulletList" then do
      let cs ← pyElems content
      let parts ← cs.mapM (fun c => rec c level none)
      pure (String.join parts ++ "\n")
    else if nodeType = .str "orderedList" then do
      let cs ← pyElems content
      let parts ← cs.enum.mapM (fun ic => rec ic.2 level (some (ic.1 + 1)))
      pure (String.join parts ++ "\n")
    else if nodeType = .str "listItem" then do
      let cs ← pyElems content
      let parts ← cs.mapM (fun c => rec c (level + 1) none)
      let itemParts := (parts.filter (fun t => pyStrip t ≠ "")).map pyStrip
      let itemText := String.intercalate " " itemParts
      let indent := strRepeat "  " level
      match listIndex with
      | some i => pure (indent ++ toString i ++ ". " ++ itemText ++ "\n")
      | none => pure (indent ++ "- " ++ itemText ++ "\n")
    else if nodeType = .str "codeBlock" then do
      let cs ← pyElems content
      let vals ← cs.mapM (fun c => pyGetD c "text" (.str ""))
      let codeText ← pyJoin vals
      let language ← pyGetD attrs "language" (.str "")
      pure ("```" ++ pyStr language ++ "\n" ++ codeText ++ "\n```\n\n")
    else if nodeType = .str "blockquote" then do
      let cs ← pyElems content
      let parts ← cs.mapM (fun c => rec c level none)
      let quoteText := String.join parts
      let quoted := ((pySplitNl quoteText).filter
        (fun l => pyStrip l ≠ "")).map (fun l => "> " ++ l)
      pure (String.intercalate "\n" quoted ++ "\n\n")
    else if nodeType = .str "rule" then pure "---\n\n"
    else if nodeType = .str "hardBreak" then pure "  \n"
    else if nodeType = .str "table" then tbl node
    else if nodeType = .str "tableRow" ∨ nodeType = .str "tableCell" ∨
        nodeType = .str "tableHeader" then do
      let cs ← pyElems content
      let parts ← cs.mapM (fun c => rec c level none)
      pure (String.join parts)
    else if nodeType = .str "text" then do
      let marks := getD kvs "marks" (.arr [])
      let ms ← pyElems marks
      let formatted ← ms.foldlM applyMark text
      match formatted with
      | .str s => pure s
      | _ => .error .typeError
    else if nodeType = .str "mention" then do
      let fallback ← pyGetD attrs "displayName" (.str "unknown")
      let dn ← pyGetD attrs "text" fallback
      pure ("@" ++ pyStr dn)
    else if nodeType = .str "emoji" then do
      let t ← pyGetD attrs "text" .null
      let emojiChar ← if truthy t then pure t else pyGetD attrs "shortName" (.str "")
      match emojiChar with
      | .str s => pure s
      | _ => .error .typeError
    else if nodeType = .str "inlineCard" ∨ nodeType = .str "blockCard" then do
      let url ← pyGetD attrs "url" (.str "")
      pure ("[" ++ pyStr url ++ "](" ++ pyStr url ++ ")")
    else if nodeType = .str "mediaSingle" ∨ nodeType = .str "media" then
      pure "<!-- media attachment -->\n\n"
    else if nodeType = .str "expand" ∨ nodeType = .str "nestedExpand" then do
      let title ← pyGetD attrs "title" (.str "Details")
      let cs ← pyElems content
      let parts ← cs.mapM (fun c => rec c level none)
      let inner := String.join parts
      pure ("<details>\n<summary>" ++ pyStr title ++ "</summary>\n\n" ++
        inner ++ "\n</details>\n\n")
    else do
      let cs ← pyElems content
      let parts ← cs.mapM (fun c => rec c level none)
      pure (String.join parts)
  | _ => pure ""

/-- The body of `JiraClient._process_table_node` (`jira_client.py` lines
525-568), abstracted over the recursive call to `_process_adf_node` (which
the Python code invokes with default `level=0`, `list_index=None`). -/
def process_table_step (rec : JVal → Nat → Option Nat → Except PyErr String)
    (tableNode : JVal) : Except PyErr String := do
  let rows ← pyGetD tableNode "content" (.arr [])
  if ¬ truthy rows then pure ""
  else do
    let rowList ← pyElems rows
    let mdRows ← rowList.mapM (fun row => do
      let cellsV ← pyGetD row "content" (.arr [])
      let cells ← pyElems cellsV
      cells.mapM (fun cell => do
        let kidsV ← pyGetD cell "content" (.arr [])
        let kids ← pyElems kidsV
        let parts ← kids.mapM (fun c => rec c 0 none)
        pure (pyReplaceNl (pyStrip (String.join parts)))))
    if mdRows.isEmpty then pure ""
    else do
      let colCount := mdRows.foldl (fun a r => max a r.length) 0
      let padded := mdRows.map (fun r => r ++ List.replicate (colCount - r.length) "")
      let header := padded.headD []
      let lines := ("| " ++ String.intercalate " | " header ++ " |") ::
        ("| " ++ String.intercalate " | " (List.replicate colCount "---") ++ " |") ::
        padded.tail.map (fun r => "| " ++ String.intercalate " | " r ++ " |")
      pure (String.intercalate "\n" lines ++ "\n\n")

mutual
/-- Fuel-indexed recursion for `_process_adf_node`.  The Python function
recurses structurally on the node tree; `JVal.size` of the node bounds the
recursion, so fuel `JVal.size node` suffices and the `fuelExhausted` branch
is unreachable from the `process_adf_node` wrapper (see the fuel lemmas
below). -/
def process_adf_fuel : Nat → JVal → Nat → Option Nat → Except PyErr String
  | 0, _, _, _ => .error .fuelExhausted
  | fuel + 1, node, level, listIndex =>
    process_adf_step (process_adf_fuel fuel) (process_table_fuel fuel) node level listIndex

/-- Fuel-indexed recursion for `_process_table_node`. -/
def process_table_fuel : Nat → JVal → Except PyErr String
  | 0, _ => .error .fuelExhausted
  | fuel + 1, node => process_table_step (process_adf_fuel fuel) node
end

/-- `JiraClient._process_adf_node(node, level, list_index)` (`jira_client.py`
lines 353-523). -/
def process_adf_node (node : JVal) (level : Nat) (listIndex : Option Nat) :
    Except PyErr String :=
  process_adf_fuel (JVal.size node) node level listIndex

/-- `JiraClient._process_table_node(table_node)` (`jira_client.py` lines
525-568). -/
def process_table_node (node : JVal) : Except PyErr String :=
  process_table_fuel (JVal.size node) node

/-- `JiraClient._convert_adf_to_markdown(adf_content)` (`jira_client.py`
lines 340-351): empty string for falsy input, otherwise the converted node
stripped of leading/trailing whitespace. -/
def convert_adf_to_markdown (adfContent : JVal) : Except PyErr String :=
  if ¬ truthy adfContent then pure ""
  else (process_adf_node adfContent 0 none).map pyStrip

/-- The processed dict built by `JiraClient._process_issue`: keys `key`,
`summary`, `status`, `description` (converted Markdown, always a string)
and `parent` (either `None` or a dict with the parent's `key` and
`summary`, modelled as an optional pair). -/
structure ProcessedIssue where
  key : JVal
  summary : JVal
  status : JVal
  description : String
  parent : Option (JVal × JVal)
deriving DecidableEq, Repr

/-- `JiraClient._process_issue(issue)` (`jira_client.py` lines 313-338),
with Python evaluation order: `issue['fields']` (the dict literal first
evaluates `issue['key']`, then the `.get` chains, then the converter), and
afterwards the `parent` block guarded by `'parent' in fields and
fields['parent']`. -/
def process_issue (issue : JVal) : Except PyErr ProcessedIssue := do
  let fields ← pySubscr issue "fields"
  let key ← pySubscr issue "key"
  let summary ← pyGetD fields "summary" (.str "")
  let statusObj ← pyGetD fields "status" (.obj [])
  let status ← pyGetD statusObj "name" (.str "")
  let descriptionVal ← pyGetD fields "description" .null
  let description ← convert_adf_to_markdown descriptionVal
  let hasParent ← pyHasKey fields "parent"
  let parent ← if hasParent then do
      let p ← pySubscr fields "parent"
      if truthy p then do
        let pk ← pySubscr p "key"
        let pf ← pySubscr p "fields"
        let ps ← pyGetD pf "summary" (.str "")
        pure (some (pk, ps))
      else pure none
    else pure none
  pure ⟨key, summary, status, description, parent⟩

/-- One HTTP response of the simulated `/search/jql` endpoint: a status
code and the deserialized JSON body. -/
structure HttpResp where
  status : Nat
  body : JVal
deriving Repr

/-- The `while True` loop of `JiraClient._fetch_issues_by_jql`
(`jira_client.py` lines 250-309).  `responses n` is the response to the
`(n+1)`-st page request; the continuation token is opaque and only tested
for truthiness, so indexing responses by request ordinal is faithful.
Returns the Python return value (or the raised exception) together with
the final `page_count`, i.e. the number of page requests issued.

The loop body checks, in source order: `status == 404` (fatal
`searchEndpointNotFound`), `raise_for_status()` (`httpError` for
`400 <= status < 600`), `if not issues: break`, processing of each raw
issue via `_process_issue` (a raised exception aborts the whole call),
`if not next_page_token: break`, `if data.get('isLast', False): break`,
and the hard safety cap `if page_count >= 1000: break`.  The read of
`data.get('total', 0)` is used only in log messages and cannot raise once
the `issues` read has succeeded, so it is not modelled.  The structural
fuel equals the remaining iterations the 1000-page cap allows, so the
fuel-0 branch is unreachable from the `fetch_issues_by_jql` entry point
(the cap check always breaks first). -/
def fetch_issues_loop (responses : Nat → HttpResp) :
    Nat → Nat → List ProcessedIssue → Except PyErr (List ProcessedIssue) × Nat
  | 0, pageCount, acc => (.ok acc, pageCount)
  | fuel + 1, pageCount, acc =>
    let pc := pageCount + 1
    let resp := responses pageCount
    if resp.status = 404 then (.error .searchEndpointNotFound, pc)
    else if 400 ≤ resp.status ∧ resp.status < 600 then (.error .httpError, pc)
    else
      match pyGetD resp.body "issues" (.arr []) with
      | .error e => (.error e, pc)
      | .ok issues =>
        if ¬ truthy issues then (.ok acc, pc)
        else
          match pyElems issues with
          | .error e => (.error e, pc)
          | .ok items =>
            match items.mapM process_issue with
            | .error e => (.error e, pc)
            | .ok processed =>
              let acc2 := acc ++ processed
              match pyGetD resp.body "nextPageToken" .null with
              | .error e => (.error e, pc)
              | .ok tok =>
                if ¬ truthy tok then (.ok acc2, pc)
                else
                  match pyGetD resp.body "isLast" (.bool false) with
                  | .error e => (.error e, pc)
                  | .ok isLastV =>
                    if truthy isLastV then (.ok acc2, pc)
                    else if 1000 ≤ pc then (.ok acc2, pc)
                    else fetch_issues_loop responses fuel pc acc2

/-- `JiraClient._fetch_issues_by_jql(jql)` against a simulated endpoint:
starts with an empty accumulator, no token and `page_count = 0`. -/
def fetch_issues_by_jql (responses : Nat → HttpResp) :
    Except PyErr (List ProcessedIssue) × Nat :=
  fetch_issues_loop responses 1000 0 []

theorem JVal.size_pos : ∀ v : JVal, 1 ≤ JVal.size v := by
  intro v; cases v <;> simp [JVal.size]

theorem except_bind_ok {ε α β : Type} (a : α) (f : α → Except ε β) :
    (Except.ok a >>= f) = f a := rfl

theorem except_bind_error {ε α β : Type} (e : ε) (f : α → Except ε β) :
    ((Except.error e : Except ε α) >>= f) = .error e := rfl

theorem except_pure {ε α : Type} (a : α) : (pure a : Except ε α) = .ok a := rfl

theorem except_map_ok {ε α β : Type} (a : α) (f : α → β) :
    ((Except.ok a : Except ε α).map f) = .ok (f a) := rfl

theorem exceptMapM_congr {α β ε : Type} {l : List α} {f g : α → Except ε β}
    (h : ∀ x ∈ l, f x = g x) : l.mapM f = l.mapM g := by
  induction l with
  | nil => rfl
  | cons x xs ih =>
    simp only [List.mapM_cons, h x (by simp)]
    congr 1
    funext y
    rw [ih (fun z hz => h z (by simp [hz]))]

theorem lookupStr_size {kvs : List (String × JVal)} {k : String} {v : JVal}
    (h : lookupStr kvs k = some v) : JVal.size v ≤ sizeEntries kvs := by
  induction kvs with
  | nil => simp [lookupStr] at h
  | cons kv rest ih =>
    obtain ⟨k1, v1⟩ := kv
    simp only [lookupStr] at h
    by_cases hk : k1 = k
    · simp only [hk, if_pos rfl] at h
      injection h with h
      subst h
      simp [sizeEntries]
    · rw [if_neg hk] at h
      have := ih h
      simp [sizeEntries]
      omega

theorem mem_sizeItems {x : JVal} {xs : List JVal} (h : x ∈ xs) :
    JVal.size x ≤ sizeItems xs := by
  induction xs with
  | nil => cases h
  | cons y ys ih =>
    rcases List.mem_cons.mp h with h1 | h2
    · subst h1; simp [sizeItems]
    · have := ih h2; simp [sizeItems]; omega

theorem pyElems_size {v c : JVal} {cs : List JVal} (h : pyElems v = .ok cs)
    (hc : c ∈ cs) : JVal.size c ≤ JVal.size v := by
  cases v with
  | arr xs =>
    injection h with h
    subst h
    have := mem_sizeItems hc
    simp [JVal.size]; omega
  | str s =>
    injection h with h
    subst h
    obtain ⟨ch, _, rfl⟩ := List.mem_map.mp hc
    simp [JVal.size]
  | obj kvs =>
    injection h with h
    subst h
    obtain ⟨kv, _, rfl⟩ := List.mem_map.mp hc
    simp [JVal.size]
  | null => simp [pyElems] at h
  | bool b => simp [pyElems] at h
  | num n => simp [pyElems] at h

theorem getD_elem_size {kvs : List (String × JVal)} {k : String}
    {cs : List JVal} {c : JVal} (h1 : pyElems (getD kvs k (.arr [])) = .ok cs)
    (hc : c ∈ cs) : JVal.size c < JVal.size (.obj kvs) := by
  unfold getD at h1
  cases hl : lookupStr kvs k with
  | none =>
    rw [hl] at h1
    simp [pyElems] at h1
    subst h1
    cases hc
  | some w =>
    rw [hl, Option.getD_some] at h1
    have hle := pyElems_size h1 hc
    have hw := lookupStr_size hl
    simp only [JVal.size]
    omega

theorem pyGetD_elem_size {v w c : JVal} {k : String} {cs : List JVal}
    (h0 : pyGetD v k (.arr []) = .ok w) (h1 : pyElems w = .ok cs)
    (hc : c ∈ cs) : JVal.size c < JVal.size v := by
  cases v with
  | obj kvs =>
    injection h0 with h0
    subst h0
    exact getD_elem_size h1 hc
  | null => simp [pyGetD] at h0
  | bool b => simp [pyGetD] at h0
  | num n => simp [pyGetD] at h0
  | str s => simp [pyGetD] at h0
  | arr xs => simp [pyGetD] at h0

theorem type_table_size {kvs : List (String × JVal)}
    (h : getD kvs "type" (.str "") = .str "table") : 2 ≤ JVal.size (.obj kvs) := by
  unfold getD at h
  cases hl : lookupStr kvs "type" with
  | none => rw [hl] at h; simp at h
  | some w =>
    rw [hl] at h
    simp at h
    subst h
    have := lookupStr_size hl
    simp [JVal.size] at this ⊢
    omega

theorem except_bind_congr {ε α β : Type} {ma : Except ε α} {f g : α → Except ε β}
    (h : ∀ a, ma = .ok a → f a = g a) : (ma >>= f) = (ma >>= g) := by
  cases ma with
  | error e => rfl
  | ok a => exact h a rfl

theorem except_bind_congr2 {ε α β : Type} {ma mb : Except ε α}
    {f g : α → Except ε β} (hm : ma = mb) (h : ∀ a, ma = .ok a → f a = g a) :
    (ma >>= f) = (mb >>= g) := by
  subst hm
  exact except_bind_congr h

set_option maxHeartbeats 3200000 in
theorem process_adf_step_congr
    (r1 r2 : JVal → Nat → Option Nat → Except PyErr String)
    (t1 t2 : JVal → Except PyErr String) (node : JVal) (level : Nat)
    (li : Option Nat)
    (hr : ∀ c l2 li2, JVal.size c < JVal.size node → r1 c l2 li2 = r2 c l2 li2)
    (ht : ∀ kvs, node = .obj kvs → getD kvs "type" (.str "") = .str "table" →
      t1 node = t2 node) :
    process_adf_step r1 t1 node level li = process_adf_step r2 t2 node level li := by
  cases node with
  | obj kvs =>
    unfold process_adf_step
    dsimp only
    by_cases h1 : getD kvs "type" (.str "") = .str "doc"
    case pos =>
      simp only [if_pos h1]
      apply except_bind_congr
      intro cs hcs
      refine except_bind_congr2 (exceptMapM_congr ?_) (fun a _ => rfl)
      intro c hc
      exact hr c _ _ (getD_elem_size hcs hc)
    case neg =>
      simp only [if_neg h1]
      by_cases h2 : getD kvs "type" (.str "") = .str "paragraph"
      case pos =>
        simp only [if_pos h2]
        apply except_bind_congr
        intro cs hcs
        refine except_bind_congr2 (exceptMapM_congr ?_) (fun a _ => rfl)
        intro c hc
        exact hr c _ _ (getD_elem_size hcs hc)
      case neg =>
        simp only [if_neg h2]
        by_cases h3 : getD kvs "type" (.str "") = .str "heading"
        case pos =>
          simp only [if_pos h3]
          apply except_bind_congr
          intro hl hhl
          apply except_bind_congr
          intro cs hcs
          refine except_bind_congr2 (exceptMapM_congr ?_) (fun a _ => rfl)
          intro c hc
          exact hr c _ _ (getD_elem_size hcs hc)
        case neg =>
          simp only [if_neg h3]
          by_cases h4 : getD kvs "type" (.str "") = .str "bulletList"
          case pos =>
            simp only [if_pos h4]
            apply except_bind_congr
            intro cs hcs
            refine except_bind_congr2 (exceptMapM_congr ?_) (fun a _ => rfl)
            intro c hc
            exact hr c _ _ (getD_elem_size hcs hc)
          case neg =>
            simp only [if_neg h4]
            by_cases h5 : getD kvs "type" (.str "") = .str "orderedList"
            case pos =>
              simp only [if_pos h5]
              apply except_bind_congr
              intro cs hcs
              refine except_bind_congr2 (exceptMapM_congr ?_) (fun a _ => rfl)
              intro ic hic
              refine hr ic.2 _ _ (getD_elem_size hcs ?_)
              have hmem := List.mem_map_of_mem Prod.snd hic
              rw [List.enum_map_snd] at hmem
              exact hmem
            case neg =>
              simp only [if_neg h5]
              by_cases h6 : getD kvs "type" (.str "") = .str "listItem"
              case pos =>
                simp only [if_pos h6]
                apply except_bind_congr
                intro cs hcs
                refine except_bind_congr2 (exceptMapM_congr ?_) (fun a _ => rfl)
                intro c hc
                exact hr c _ _ (getD_elem_size hcs hc)
              case neg =>
                simp only [if_neg h6]
                by_cases h7 : getD kvs "type" (.str "") = .str "codeBlock"
                case pos =>
                  simp only [if_pos h7]
                case neg =>
                  simp only [if_neg h7]
                  by_cases h8 : getD kvs "type" (.str "") = .str "blockquote"
                  case pos =>
                    simp only [if_pos h8]
                    apply except_bind_congr
                    intro cs hcs
                    refine except_bind_congr2 (exceptMapM_congr ?_) (fun a _ => rfl)
                    intro c hc
                    exact hr c _ _ (getD_elem_size hcs hc)
                  case neg =>
                    simp only [if_neg h8]
                    by_cases h9 : getD kvs "type" (.str "") = .str "rule"
                    case pos =>
                      simp only [if_pos h9]
                    case neg =>
                      simp only [if_neg h9]
                      by_cases h10 : getD kvs "type" (.str "") = .str "hardBreak"
                      case pos =>
                        simp only [if_pos h10]
                      case neg =>
                        simp only [if_neg h10]
                        by_cases h11 : getD kvs "type" (.str "") = .str "table"
                        case pos =>
                          simp only [if_pos h11]
                          exact ht kvs rfl h11
                        case neg =>
                          simp only [if_neg h11]
                          by_cases h12 : getD kvs "type" (.str "") = .str "tableRow" ∨ getD kvs "type" (.str "") = .str "tableCell" ∨ getD kvs "type" (.str "") = .str "tableHeader"
                          case pos =>
                            simp only [if_pos h12]
                            apply except_bind_congr
                            intro cs hcs
                            refine except_bind_congr2 (exceptMapM_congr ?_) (fun a _ => rfl)
                            intro c hc
                            exact hr c _ _ (getD_elem_size hcs hc)
                          case neg =>
                            simp only [if_neg h12]
                            by_cases h13 : getD kvs "type" (.str "") = .str "text"
                            case pos =>
                              simp only [if_pos h13]
                            case neg =>
                              simp only [if_neg h13]
                              by_cases h14 : getD kvs "type" (.str "") = .str "mention"
                              case pos =>
                                simp only [if_pos h14]
                              case neg =>
                                simp only [if_neg h14]
                                by_cases h15 : getD kvs "type" (.str "") = .str "emoji"
                                case pos =>
                                  simp only [if_pos h15]
                                case neg =>
                                  simp only [if_neg h15]
                                  by_cases h16 : getD kvs "type" (.str "") = .str "inlineCard" ∨ getD kvs "type" (.str "") = .str "blockCard"
                                  case pos =>
                                    simp only [if_pos h16]
                                  case neg =>
                                    simp only [if_neg h16]
                                    by_cases h17 : getD kvs "type" (.str "") = .str "mediaSingle" ∨ getD kvs "type" (.str "") = .str "media"
                                    case pos =>
                                      simp only [if_pos h17]
                                    case neg =>
                                      simp only [if_neg h17]
                                      by_cases h18 : getD kvs "type" (.str "") = .str "expand" ∨ getD kvs "type" (.str "") = .str "nestedExpand"
                                      case pos =>
                                        simp only [if_pos h18]
                                        apply except_bind_congr
                                        intro hl hhl
                                        apply except_bind_congr
                                        intro cs hcs
                                        refine except_bind_congr2 (exceptMapM_congr ?_) (fun a _ => rfl)
                                        intro c hc
                                        exact hr c _ _ (getD_elem_size hcs hc)
                                      case neg =>
                                        simp only [if_neg h18]
                                        apply except_bind_congr
                                        intro cs hcs
                                        refine except_bind_congr2 (exceptMapM_congr ?_) (fun a _ => rfl)
                                        intro c hc
                                        exact hr c _ _ (getD_elem_size hcs hc)
  | null => rfl
  | bool b => rfl
  | num n => rfl
  | str s => rfl
  | arr xs => rfl

theorem process_table_step_congr
    (r1 r2 : JVal → Nat → Option Nat → Except PyErr String) (node : JVal)
    (hr : ∀ c l2 li2, JVal.size c + 3 ≤ JVal.size node → r1 c l2 li2 = r2 c l2 li2) :
    process_table_step r1 node = process_table_step r2 node := by
  unfold process_table_step
  apply except_bind_congr
  intro rows hrows
  split_ifs with hx
  all_goals try rfl
  all_goals
    apply except_bind_congr
    intro rowList hre
    refine except_bind_congr2 (exceptMapM_congr ?_) (fun a _ => rfl)
    intro row hrow
    apply except_bind_congr
    intro cellsV hcv
    apply except_bind_congr
    intro cells hce
    refine exceptMapM_congr ?_
    intro cell hcell
    apply except_bind_congr
    intro kidsV hkv
    apply except_bind_congr
    intro kids hke
    refine except_bind_congr2 (exceptMapM_congr ?_) (fun a _ => rfl)
    intro kid hkid
    refine hr kid 0 none ?_
    have h1 := pyGetD_elem_size hkv hke hkid
    have h2 := pyGetD_elem_size hcv hce hcell
    have h3 := pyGetD_elem_size hrows hre hrow
    omega

theorem fuel_sufficient : ∀ f : Nat,
    (∀ node level li, JVal.size node ≤ f →
      process_adf_fuel f node level li = process_adf_node node level li) ∧
    (∀ node, 2 ≤ JVal.size node → JVal.size node ≤ f + 1 →
      process_table_fuel f node = process_table_fuel (JVal.size node - 1) node) := by
  intro f
  induction f using Nat.strong_induction_on with
  | _ f ih =>
    constructor
    · intro node level li hle
      have h1 := JVal.size_pos node
      unfold process_adf_node
      obtain ⟨f0, rfl⟩ : ∃ f0, f = f0 + 1 := ⟨f - 1, by omega⟩
      obtain ⟨m0, hm⟩ : ∃ m0, JVal.size node = m0 + 1 := ⟨JVal.size node - 1, by omega⟩
      rw [hm]
      show process_adf_step (process_adf_fuel f0) (process_table_fuel f0) node level li
        = process_adf_step (process_adf_fuel m0) (process_table_fuel m0) node level li
      apply process_adf_step_congr
      · intro c l2 li2 hc
        rw [hm] at hc
        have hc1 : JVal.size c ≤ f0 := by omega
        have hc2 : JVal.size c ≤ m0 := by omega
        rw [(ih f0 (by omega)).1 c l2 li2 hc1, (ih m0 (by omega)).1 c l2 li2 hc2]
      · intro kvs hnode htype
        subst hnode
        have h2 := type_table_size htype
        have e1 := (ih f0 (by omega)).2 (.obj kvs) h2 (by omega)
        have e2 := (ih m0 (by omega)).2 (.obj kvs) h2 (by omega)
        rw [e1, e2]
    · intro node h2 hle
      obtain ⟨f0, rfl⟩ : ∃ f0, f = f0 + 1 := ⟨f - 1, by omega⟩
      obtain ⟨m0, hm⟩ : ∃ m0, JVal.size node - 1 = m0 + 1 := ⟨JVal.size node - 2, by omega⟩
      rw [hm]
      show process_table_step (process_adf_fuel f0) node
        = process_table_step (process_adf_fuel m0) node
      apply process_table_step_congr
      intro c l2 li2 hc
      have hc1 : JVal.size c ≤ f0 := by omega
      have hc2 : JVal.size c ≤ m0 := by omega
      rw [(ih f0 (by omega)).1 c l2 li2 hc1, (ih m0 (by omega)).1 c l2 li2 hc2]

theorem process_adf_fuel_eq {f : Nat} (node : JVal) (level : Nat) (li : Option Nat)
    (h : JVal.size node ≤ f) :
    process_adf_fuel f node level li = process_adf_node node level li :=
  (fuel_sufficient f).1 node level li h

theorem process_table_fuel_eq {f : Nat} (node : JVal) (h2 : 2 ≤ JVal.size node)
    (h : JVal.size node ≤ f + 1) :
    process_table_fuel f node = process_table_node node := by
  unfold process_table_node
  rw [(fuel_sufficient f).2 node h2 h,
    ← (fuel_sufficient (JVal.size node)).2 node h2 (by omega)]

theorem process_adf_node_unfold (node : JVal) (level : Nat) (li : Option Nat) :
    process_adf_node node level li =
      process_adf_step (process_adf_fuel (JVal.size node - 1))
        (process_table_fuel (JVal.size node - 1)) node level li := by
  have h1 := JVal.size_pos node
  obtain ⟨m0, hm⟩ : ∃ m0, JVal.size node = m0 + 1 := ⟨JVal.size node - 1, by omega⟩
  show process_adf_fuel (JVal.size node) node level li = _
  rw [hm]
  simp only [Nat.add_sub_cancel]
  rfl

theorem process_table_node_unfold (node : JVal) :
    process_table_node node =
      process_table_step (process_adf_fuel (JVal.size node - 1)) node := by
  have h1 := JVal.size_pos node
  obtain ⟨m0, hm⟩ : ∃ m0, JVal.size node = m0 + 1 := ⟨JVal.size node - 1, by omega⟩
  show process_table_fuel (JVal.size node) node = _
  rw [hm]
  simp only [Nat.add_sub_cancel]
  rfl

/-- The `type` tags with a dedicated rule in `_process_adf_node`; any other
tag value falls through to the JE-28 catch-all branch. -/
def knownAdfTags : List JVal :=
  [.str "doc", .str "paragraph", .str "heading", .str "bulletList",
   .str "orderedList", .str "listItem", .str "codeBlock", .str "blockquote",
   .str "rule", .str "hardBreak", .str "table", .str "tableRow",
   .str "tableCell", .str "tableHeader", .str "text", .str "mention",
   .str "emoji", .str "inlineCard", .str "blockCard", .str "mediaSingle",
   .str "media", .str "expand", .str "nestedExpand"]

/-- C10: normalization of a record whose parent reference lacks the embedded
`fields` object, or lacks a `key`, raises `KeyError` instead of producing a
normalized issue; a parent with `key` and `fields` but no `summary` is fine
(its summary defaults to the empty string). -/
theorem parent_requires_key_and_fields :
    process_issue (.obj [("key", .str "T-2"), ("fields", .obj [("parent",
      .obj [("key", .str "T-1")])])]) = .error .keyError ∧
    process_issue (.obj [("key", .str "T-2"), ("fields", .obj [("parent",
      .obj [("fields", .obj [])])])]) = .error .keyError ∧
    process_issue (.obj [("key", .str "T-2"), ("fields", .obj [("parent",
      .obj [("key", .str "T-1"), ("fields", .obj [])])])]) =
      .ok ⟨.str "T-2", .str "", .str "", "", some (.str "T-1", .str "")⟩ := by
  refine ⟨rfl, rfl, rfl⟩

/-- C9: a `mediaSingle` node (named "media-group" by the specification,
which documents the `('mediaSingle', 'media')` branch of the code as
"media / media-group"), like a `media` node, converts to the fixed
placeholder comment marker followed by two newlines, whatever its children
and attributes are — attachment content is never embedded. -/
theorem media_placeholder :
    ∀ (kvs : List (String × JVal)) (level : Nat) (li : Option Nat),
      (getD kvs "type" (.str "") = .str "mediaSingle" ∨
        getD kvs "type" (.str "") = .str "media") →
      process_adf_node (.obj kvs) level li = .ok "<!-- media attachment -->\n\n" := by
  intro kvs level li h
  have hne : ∀ t : JVal, t ≠ .str "mediaSingle" → t ≠ .str "media" →
      getD kvs "type" (.str "") ≠ t := by
    intro t h1 h2 heq
    rcases h with h3 | h3 <;> rw [heq] at h3
    · exact h1 h3
    · exact h2 h3
  rw [process_adf_node_unfold]
  unfold process_adf_step
  dsimp only
  rw [if_neg (hne _ (by decide) (by decide)), if_neg (hne _ (by decide) (by decide)),
    if_neg (hne _ (by decide) (by decide)), if_neg (hne _ (by decide) (by decide)),
    if_neg (hne _ (by decide) (by decide)), if_neg (hne _ (by decide) (by decide)),
    if_neg (hne _ (by decide) (by decide)), if_neg (hne _ (by decide) (by decide)),
    if_neg (hne _ (by decide) (by decide)), if_neg (hne _ (by decide) (by decide)),
    if_neg (hne _ (by decide) (by decide)),
    if_neg (by
      intro hor
      rcases hor with h4 | h4 | h4 <;> exact hne _ (by decide) (by decide) h4),
    if_neg (hne _ (by decide) (by decide)), if_neg (hne _ (by decide) (by decide)),
    if_neg (hne _ (by decide) (by decide)),
    if_neg (by
      intro hor
      rcases hor with h4 | h4 <;> exact hne _ (by decide) (by decide) h4),
    if_pos h]
  rfl

/-- C9 witness: the theorem applied to a concrete `mediaSingle` node with a
media child. -/
theorem media_placeholder_witness :
    process_adf_node (.obj [("type", .str "mediaSingle"), ("content",
      .arr [.obj [("type", .str "media")]])]) 0 none =
      .ok "<!-- media attachment -->\n\n" :=
  media_placeholder _ 0 none (Or.inl rfl)

/-- C7: whenever a page request of the search loop is answered with a 404
status, `_fetch_issues_by_jql` raises the fatal "Search API endpoint not
found" error immediately: no further request is issued (the request count
is `pageCount + 1`) and nothing accumulated so far is returned.  In
particular a 404 on the first page aborts the whole call with that error. -/
theorem fetch_404_fatal :
    (∀ (responses : Nat → HttpResp) (fuel pageCount : Nat)
      (acc : List ProcessedIssue), (responses pageCount).status = 404 →
      fetch_issues_loop responses (fuel + 1) pageCount acc =
        (.error .searchEndpointNotFound, pageCount + 1)) ∧
    (∀ responses : Nat → HttpResp, (responses 0).status = 404 →
      fetch_issues_by_jql responses = (.error .searchEndpointNotFound, 1)) := by
  constructor
  · intro responses fuel pageCount acc h
    unfold fetch_issues_loop
    dsimp only
    rw [if_pos h]
  · intro responses h
    show fetch_issues_loop responses (999 + 1) 0 [] = _
    unfold fetch_issues_loop
    dsimp only
    rw [if_pos h]

/-- C7 witness: a concrete endpoint whose pages all answer 404. -/
theorem fetch_404_fatal_witness :
    fetch_issues_loop (fun _ => ⟨404, .null⟩) 5 3 [] =
      (.error .searchEndpointNotFound, 4) ∧
    fetch_issues_by_jql (fun _ => ⟨404, .null⟩) =
      (.error .searchEndpointNotFound, 1) :=
  ⟨fetch_404_fatal.1 (fun _ => ⟨404, .null⟩) 4 3 [] rfl,
   fetch_404_fatal.2 (fun _ => ⟨404, .null⟩) rfl⟩

/-- The five inline mark kinds recognized by the `text` branch of
`_process_adf_node`. -/
inductive MarkSpec : Type where
  | strong
  | em
  | code
  | strike
  | link (href : String)
deriving DecidableEq, Repr

/-- The ADF JSON form of a mark (a `link` mark carries its target in
`attrs.href`). -/
def MarkSpec.toJVal : MarkSpec → JVal
  | .strong => .obj [("type", .str "strong")]
  | .em => .obj [("type", .str "em")]
  | .code => .obj [("type", .str "code")]
  | .strike => .obj [("type", .str "strike")]
  | .link href => .obj [("type", .str "link"), ("attrs", .obj [("href", .str href)])]

/-- The Markdown wrapper each mark applies, as the specification states it:
strong → `**x**`, em → `*x*`, code → backtick-quoted, link → `[x](href)`,
strike → `~~x~~`. -/
def MarkSpec.wrap : MarkSpec → String → String
  | .strong, x => "**" ++ x ++ "**"
  | .em, x => "*" ++ x ++ "*"
  | .code, x => "`" ++ x ++ "`"
  | .strike, x => "~~" ++ x ++ "~~"
  | .link href, x => "[" ++ x ++ "](" ++ href ++ ")"

theorem markFold (ms : List MarkSpec) (s : String) :
    (ms.map MarkSpec.toJVal).foldlM applyMark (.str s) =
      .ok (.str (ms.foldl (fun acc m => m.wrap acc) s)) := by
  induction ms generalizing s with
  | nil => rfl
  | cons m ms ih =>
    have hstep : applyMark (.str s) m.toJVal = .ok (.str (m.wrap s)) := by
      cases m <;> rfl
    simp only [List.map_cons, List.foldlM_cons, hstep, except_bind_ok, List.foldl_cons]
    exact ih (m.wrap s)

/-- C4: a text leaf converts to its literal text wrapped successively by
each mark in the `marks` list in listed order, the first mark being the
innermost wrapper (expressed by the left fold over `MarkSpec.wrap`); in
particular `"hi"` with marks `[strong, em]` yields the literal characters
`*` + `**hi**` + `*`. -/
theorem text_mark_nesting :
    (∀ (s : String) (ms : List MarkSpec) (level : Nat) (li : Option Nat),
      process_adf_node (.obj [("type", .str "text"), ("text", .str s),
        ("marks", .arr (ms.map MarkSpec.toJVal))]) level li =
        .ok (ms.foldl (fun acc m => m.wrap acc) s)) ∧
    process_adf_node (.obj [("type", .str "text"), ("text", .str "hi"),
      ("marks", .arr [MarkSpec.toJVal .strong, MarkSpec.toJVal .em])]) 0 none =
      .ok ("*" ++ "**hi**" ++ "*") := by
  constructor
  · intro s ms level li
    rw [process_adf_node_unfold]
    unfold process_adf_step
    dsimp only
    have hne : ∀ t : JVal, t ≠ .str "text" →
        getD [("type", JVal.str "text"), ("text", JVal.str s),
          ("marks", JVal.arr (List.map MarkSpec.toJVal ms))] "type" (.str "") ≠ t := by
      intro t ht heq
      rw [show getD [("type", JVal.str "text"), ("text", JVal.str s),
        ("marks", JVal.arr (List.map MarkSpec.toJVal ms))] "type" (.str "") =
          .str "text" from rfl] at heq
      exact ht heq.symm
    rw [if_neg (hne _ (by decide)), if_neg (hne _ (by decide)),
      if_neg (hne _ (by decide)), if_neg (hne _ (by decide)),
      if_neg (hne _ (by decide)), if_neg (hne _ (by decide)),
      if_neg (hne _ (by decide)), if_neg (hne _ (by decide)),
      if_neg (hne _ (by decide)), if_neg (hne _ (by decide)),
      if_neg (hne _ (by decide)),
      if_neg (by
        intro hor
        rcases hor with h4 | h4 | h4 <;> exact hne _ (by decide) h4),
      if_pos (show getD [("type", JVal.str "text"), ("text", JVal.str s),
        ("marks", JVal.arr (List.map MarkSpec.toJVal ms))] "type" (.str "") =
          .str "text" from rfl)]
    simp only [show getD [("type", JVal.str "text"), ("text", JVal.str s),
        ("marks", JVal.arr (List.map MarkSpec.toJVal ms))] "marks" (.arr []) =
        .arr (List.map MarkSpec.toJVal ms) from rfl,
      show getD [("type", JVal.str "text"), ("text", JVal.str s),
        ("marks", JVal.arr (List.map MarkSpec.toJVal ms))] "text" (.str "") =
        .str s from rfl,
      pyElems, except_bind_ok, markFold ms s]
    rfl
  · rfl

/-- C4 witness (the universally quantified part applied at a concrete
input; the statement has no propositional hypothesis, the witness records
the evaluation). -/
theorem text_mark_nesting_witness :
    process_adf_node (.obj [("type", .str "text"), ("text", .str "go"),
      ("marks", .arr (List.map MarkSpec.toJVal [.code, .link "u"]))]) 0 none =
      .ok ("[" ++ "`go`" ++ "](" ++ "u" ++ ")") :=
  text_mark_nesting.1 "go" [.code, .link "u"] 0 none

/-- C3: a node whose type tag matches none of the known rules converts to
the concatenation of its converted children with no wrapper (the JE-28
catch-all, recursing at the same nesting level with no list index); in
particular an unrecognized type with a single text child `"X"` yields
`"X"`, and an unrecognized type with no children yields the empty
string. -/
theorem unknown_type_concat_children :
    (∀ (kvs : List (String × JVal)) (level : Nat) (li : Option Nat),
      getD kvs "type" (.str "") ∉ knownAdfTags →
      process_adf_node (.obj kvs) level li =
        (do
          let cs ← pyElems (getD kvs "content" (.arr []))
          let parts ← cs.mapM (fun c => process_adf_node c level none)
          pure (String.join parts))) ∧
    (∀ ty : JVal, ty ∉ knownAdfTags →
      process_adf_node (.obj [("type", ty), ("content",
        .arr [.obj [("type", .str "text"), ("text", .str "X")]])]) 0 none =
        .ok "X" ∧
      process_adf_node (.obj [("type", ty)]) 0 none = .ok "") := by
  have main : ∀ (kvs : List (String × JVal)) (level : Nat) (li : Option Nat),
      getD kvs "type" (.str "") ∉ knownAdfTags →
      process_adf_node (.obj kvs) level li =
        (do
          let cs ← pyElems (getD kvs "content" (.arr []))
          let parts ← cs.mapM (fun c => process_adf_node c level none)
          pure (String.join parts)) := by
    intro kvs level li h
    have hne : ∀ t : JVal, t ∈ knownAdfTags → getD kvs "type" (.str "") ≠ t := by
      intro t ht heq
      rw [heq] at h
      exact h ht
    rw [process_adf_node_unfold]
    unfold process_adf_step
    dsimp only
    rw [if_neg (hne _ (by decide)), if_neg (hne _ (by decide)),
      if_neg (hne _ (by decide)), if_neg (hne _ (by decide)),
      if_neg (hne _ (by decide)), if_neg (hne _ (by decide)),
      if_neg (hne _ (by decide)), if_neg (hne _ (by decide)),
      if_neg (hne _ (by decide)), if_neg (hne _ (by decide)),
      if_neg (hne _ (by decide)),
      if_neg (by
        intro hor
        rcases hor with h4 | h4 | h4 <;> exact hne _ (by decide) h4),
      if_neg (hne _ (by decide)), if_neg (hne _ (by decide)),
      if_neg (hne _ (by decide)),
      if_neg (by
        intro hor
        rcases hor with h4 | h4 <;> exact hne _ (by decide) h4),
      if_neg (by
        intro hor
        rcases hor with h4 | h4 <;> exact hne _ (by decide) h4),
      if_neg (by
        intro hor
        rcases hor with h4 | h4 <;> exact hne _ (by decide) h4)]
    apply except_bind_congr
    intro cs hcs
    refine except_bind_congr2 (exceptMapM_congr ?_) (fun a _ => rfl)
    intro c hc
    refine process_adf_fuel_eq c level none ?_
    have := getD_elem_size hcs hc
    omega
  refine ⟨main, ?_⟩
  intro ty hty
  constructor
  · rw [main _ 0 none (by
      rw [show getD [("type", ty), ("content",
        .arr [.obj [("type", .str "text"), ("text", .str "X")]])] "type" (.str "") =
        ty from rfl]
      exact hty)]
    rfl
  · rw [main _ 0 none (by
      rw [show getD [("type", ty)] "type" (.str "") = ty from rfl]
      exact hty)]
    rfl

/-- C3 witness: the theorem applied to the unrecognized tag `"panel"`. -/
theorem unknown_type_concat_children_witness :
    process_adf_node (.obj [("type", .str "panel"), ("content",
      .arr [.obj [("type", .str "text"), ("text", .str "X")]])]) 0 none =
      .ok "X" ∧
    process_adf_node (.obj [("type", .str "panel")]) 0 none = .ok "" :=
  unknown_type_concat_children.2 (.str "panel") (by decide)

/-- The first raw DEMO record: summary "Fix bug", status "Done", no
description, no parent. -/
def demoIssue1 : JVal :=
  .obj [("key", .str "DEMO-1"), ("fields", .obj [
    ("summary", .str "Fix bug"), ("status", .obj [("name", .str "Done")])])]

/-- The second raw DEMO record: summary "Add feature", status "Open", a
one-paragraph rich-text description "Needs design", parent DEMO-1 with
summary "Fix bug". -/
def demoIssue2 : JVal :=
  .obj [("key", .str "DEMO-2"), ("fields", .obj [
    ("summary", .str "Add feature"), ("status", .obj [("name", .str "Open")]),
    ("description", .obj [("type", .str "doc"), ("content", .arr [
      .obj [("type", .str "paragraph"), ("content", .arr [
        .obj [("type", .str "text"), ("text", .str "Needs design")]])]])]),
    ("parent", .obj [("key", .str "DEMO-1"),
      ("fields", .obj [("summary", .str "Fix bug")])])])]

/-- C8: normalization defaults — when `summary`, `status`, `description`
and `parent` are absent from the raw fields (description possibly present
but null), the processed record has empty-string summary and status, empty
description markup and no parent; `parentRef` stays `None` whenever the
raw record has no parent key; and the two-record DEMO scenario yields
exactly the two expected normalized records. -/
theorem issue_normalization :
    (∀ (kvs fkvs : List (String × JVal)) (k : JVal),
      lookupStr kvs "fields" = some (.obj fkvs) →
      lookupStr kvs "key" = some k →
      lookupStr fkvs "summary" = none →
      lookupStr fkvs "status" = none →
      (lookupStr fkvs "description" = none ∨
        lookupStr fkvs "description" = some .null) →
      lookupStr fkvs "parent" = none →
      process_issue (.obj kvs) = .ok ⟨k, .str "", .str "", "", none⟩) ∧
    (∀ (kvs fkvs : List (String × JVal)),
      lookupStr kvs "fields" = some (.obj fkvs) →
      lookupStr fkvs "parent" = none →
      ∀ res, process_issue (.obj kvs) = .ok res → res.parent = none) ∧
    [demoIssue1, demoIssue2].mapM process_issue = .ok
      [⟨.str "DEMO-1", .str "Fix bug", .str "Done", "", none⟩,
       ⟨.str "DEMO-2", .str "Add feature", .str "Open", "Needs design",
         some (.str "DEMO-1", .str "Fix bug")⟩] := by
  refine ⟨?_, ?_, rfl⟩
  · intro kvs fkvs k hf hk hs hst hd hp
    unfold process_issue
    rw [show pySubscr (.obj kvs) "fields" = .ok (.obj fkvs) by
        simp [pySubscr, hf],
      except_bind_ok,
      show pySubscr (.obj kvs) "key" = .ok k by simp [pySubscr, hk],
      except_bind_ok,
      show pyGetD (.obj fkvs) "summary" (.str "") = .ok (.str "") by
        simp [pyGetD, getD, hs],
      except_bind_ok,
      show pyGetD (.obj fkvs) "status" (.obj []) = .ok (.obj []) by
        simp [pyGetD, getD, hst],
      except_bind_ok]
    have hdesc : getD fkvs "description" .null = .null := by
      rcases hd with hd | hd <;> simp [getD, hd]
    rw [show pyGetD (.obj fkvs) "description" .null = .ok .null by
        simp [pyGetD, hdesc],
      show pyHasKey (.obj fkvs) "parent" = .ok false by
        simp [pyHasKey, hp]]
    rfl
  · intro kvs fkvs hf hp res hres
    unfold process_issue at hres
    rw [show pySubscr (.obj kvs) "fields" = .ok (.obj fkvs) by
        simp [pySubscr, hf],
      except_bind_ok] at hres
    cases hk : pySubscr (.obj kvs) "key" with
    | error e => rw [hk, except_bind_error] at hres; cases hres
    | ok k =>
      rw [hk, except_bind_ok,
        show pyGetD (.obj fkvs) "summary" (.str "") =
          .ok (getD fkvs "summary" (.str "")) from rfl,
        except_bind_ok] at hres
      cases hst : pyGetD (getD fkvs "status" (.obj [])) "name" (.str "") with
      | error e =>
        rw [show pyGetD (.obj fkvs) "status" (.obj []) =
            .ok (getD fkvs "status" (.obj [])) from rfl,
          except_bind_ok, hst, except_bind_error] at hres
        cases hres
      | ok st =>
        rw [show pyGetD (.obj fkvs) "status" (.obj []) =
            .ok (getD fkvs "status" (.obj [])) from rfl,
          except_bind_ok, hst, except_bind_ok,
          show pyGetD (.obj fkvs) "description" .null =
            .ok (getD fkvs "description" .null) from rfl,
          except_bind_ok] at hres
        cases hdm : convert_adf_to_markdown (getD fkvs "description" .null) with
        | error e => rw [hdm, except_bind_error] at hres; cases hres
        | ok dm =>
          rw [hdm, except_bind_ok,
            show pyHasKey (.obj fkvs) "parent" = .ok false by
              simp [pyHasKey, hp],
            except_bind_ok] at hres
          simp only [Bool.false_eq_true, if_false, except_bind_ok,
            except_pure] at hres
          injection hres with hres
          rw [← hres]

/-- C8 witness: the defaults conjunct applied to a record with empty
fields, and the parent conjunct applied to DEMO-1. -/
theorem issue_normalization_witness :
    process_issue (.obj [("key", .str "W-1"), ("fields", .obj [])]) =
      .ok ⟨.str "W-1", .str "", .str "", "", none⟩ ∧
    ∀ res, process_issue demoIssue1 = .ok res → res.parent = none :=
  ⟨issue_normalization.1 _ [] (.str "W-1") rfl rfl rfl rfl (Or.inl rfl) rfl,
   issue_normalization.2.1 _ [("summary", .str "Fix bug"),
     ("status", .obj [("name", .str "Done")])] rfl rfl⟩

/-- The count of page requests issued by the loop never exceeds
`pageCount + fuel` (each iteration issues exactly one request). -/
theorem fetch_loop_count_le (responses : Nat → HttpResp) :
    ∀ (fuel pageCount : Nat) (acc : List ProcessedIssue),
      (fetch_issues_loop responses fuel pageCount acc).2 ≤ pageCount + fuel := by
  intro fuel
  induction fuel with
  | zero => intro pageCount acc; simp [fetch_issues_loop]
  | succ f ih =>
    intro pageCount acc
    unfold fetch_issues_loop
    dsimp only
    repeat' split
    all_goals try dsimp only
    all_goals first
      | omega
      | exact le_trans (ih (pageCount + 1) _) (by omega)

/-- One raw record of the adversarial endpoint: key and empty fields. -/
def cursorIssue : JVal := .obj [("key", .str "LOOP-1"), ("fields", .obj [])]

/-- The normalized form of `cursorIssue`. -/
def cursorProcessed : ProcessedIssue := ⟨.str "LOOP-1", .str "", .str "", "", none⟩

/-- A simulated endpoint that always returns a continuation cursor and
exactly one record per page (and no `isLast` flag). -/
def cursorEndpoint : Nat → HttpResp := fun _ =>
  ⟨200, .obj [("issues", .arr [cursorIssue]), ("nextPageToken", .str "token")]⟩

theorem cursor_loop_run : ∀ (n pageCount : Nat) (acc : List ProcessedIssue),
    pageCount + n = 1000 → 1 ≤ n →
    fetch_issues_loop cursorEndpoint n pageCount acc =
      (.ok (acc ++ List.replicate n cursorProcessed), 1000) := by
  intro n
  induction n with
  | zero => intro pageCount acc h h1; omega
  | succ m ih =>
    intro pageCount acc hsum hpos
    have hstep : fetch_issues_loop cursorEndpoint (m + 1) pageCount acc =
        if 1000 ≤ pageCount + 1 then (.ok (acc ++ [cursorProcessed]), pageCount + 1)
        else fetch_issues_loop cursorEndpoint m (pageCount + 1)
          (acc ++ [cursorProcessed]) := rfl
    rw [hstep]
    by_cases h1000 : 1000 ≤ pageCount + 1
    · have hm : m = 0 := by omega
      subst hm
      rw [if_pos h1000]
      have : pageCount + 1 = 1000 := by omega
      rw [this]
      rfl
    · rw [if_neg h1000, ih (pageCount + 1) (acc ++ [cursorProcessed])
        (by omega) (by omega)]
      simp [List.append_assoc, List.replicate_succ]

/-- C2: for every endpoint behaviour, `_fetch_issues_by_jql` issues at most
1000 page requests; against the endpoint that always returns a cursor and
one record per page it stops after exactly 1000 pages and returns the 1000
accumulated records as a successful (non-error) result. -/
theorem fetch_page_cap :
    (∀ responses : Nat → HttpResp, (fetch_issues_by_jql responses).2 ≤ 1000) ∧
    fetch_issues_by_jql cursorEndpoint =
      (.ok (List.replicate 1000 cursorProcessed), 1000) := by
  constructor
  · intro responses
    have := fetch_loop_count_le responses 1000 0 []
    simpa [fetch_issues_by_jql] using this
  · show fetch_issues_loop cursorEndpoint 1000 0 [] = _
    rw [cursor_loop_run 1000 0 [] rfl (by omega)]
    rfl

theorem fetch_loop_stop_empty (responses : Nat → HttpResp) (fuel pageCount : Nat)
    (acc : List ProcessedIssue) (hst : (responses pageCount).status = 200)
    (hi : pyGetD (responses pageCount).body "issues" (.arr []) = .ok (.arr [])) :
    fetch_issues_loop responses (fuel + 1) pageCount acc = (.ok acc, pageCount + 1) := by
  unfold fetch_issues_loop
  simp only [hst, hi]
  rfl

theorem fetch_loop_step_cont (responses : Nat → HttpResp) (fuel pageCount : Nat)
    (acc : List ProcessedIssue) (xs : List JVal) (ys : List ProcessedIssue)
    (tok lastv : JVal)
    (hst : (responses pageCount).status = 200)
    (hi : pyGetD (responses pageCount).body "issues" (.arr []) = .ok (.arr xs))
    (hx : xs ≠ [])
    (hm : xs.mapM process_issue = .ok ys)
    (htok : pyGetD (responses pageCount).body "nextPageToken" .null = .ok tok)
    (hlast : pyGetD (responses pageCount).body "isLast" (.bool false) = .ok lastv) :
    fetch_issues_loop responses (fuel + 1) pageCount acc =
      (if ¬ truthy tok = true then (.ok (acc ++ ys), pageCount + 1)
       else if truthy lastv = true then (.ok (acc ++ ys), pageCount + 1)
       else if 1000 ≤ pageCount + 1 then (.ok (acc ++ ys), pageCount + 1)
       else fetch_issues_loop responses fuel (pageCount + 1) (acc ++ ys)) := by
  have htruthy : truthy (.arr xs) = true := by
    cases xs with
    | nil => exact absurd rfl hx
    | cons a l => rfl
  have hm2 : List.mapM.loop process_issue xs [] = Except.ok ys := hm
  conv_lhs => unfold fetch_issues_loop
  simp [hst, hi, htruthy, hm2, htok, hlast, pyElems]

theorem fetch_loop_stop_nocursor (responses : Nat → HttpResp) (fuel pageCount : Nat)
    (acc : List ProcessedIssue) (xs : List JVal) (ys : List ProcessedIssue)
    (hst : (responses pageCount).status = 200)
    (hi : pyGetD (responses pageCount).body "issues" (.arr []) = .ok (.arr xs))
    (hx : xs ≠ [])
    (hm : xs.mapM process_issue = .ok ys)
    (htok : pyGetD (responses pageCount).body "nextPageToken" .null = .ok .null) :
    fetch_issues_loop responses (fuel + 1) pageCount acc =
      (.ok (acc ++ ys), pageCount + 1) := by
  have htruthy : truthy (.arr xs) = true := by
    cases xs with
    | nil => exact absurd rfl hx
    | cons a l => rfl
  have hm2 : List.mapM.loop process_issue xs [] = Except.ok ys := hm
  conv_lhs => unfold fetch_issues_loop
  simp [hst, hi, htruthy, hm2, htok, pyElems, truthy]
  intro h
  exact absurd h hx

/-- C1 counterexample: the claim quantifies over every response sequence
whose first page carries records and a continuation cursor and whose
second page carries records but no cursor.  A first page that additionally
carries `isLast: true` is such a sequence, yet the loop honors the `isLast`
flag (jira_client.py line 298) before requesting another page: the call
returns only the first page's record after exactly one request, not both
pages' records in two requests as the claim demands. -/
theorem fetch_first_page_islast_stops :
    fetch_issues_by_jql (fun n => if n = 0 then
        ⟨200, .obj [("issues", .arr [demoIssue1]), ("nextPageToken", .str "t1"),
          ("isLast", .bool true)]⟩
      else if n = 1 then ⟨200, .obj [("issues", .arr [demoIssue2])]⟩
      else ⟨500, .null⟩) =
      (.ok [⟨.str "DEMO-1", .str "Fix bug", .str "Done", "", none⟩], 1) ∧
    ((.ok [⟨.str "DEMO-1", .str "Fix bug", .str "Done", "", none⟩],
        1) : Except PyErr (List ProcessedIssue) × Nat) ≠
      (.ok [⟨.str "DEMO-1", .str "Fix bug", .str "Done", "", none⟩,
        ⟨.str "DEMO-2", .str "Add feature", .str "Open", "Needs design",
          some (.str "DEMO-1", .str "Fix bug")⟩], 2) :=
  ⟨rfl, by decide⟩

/-- C1 (amended): against a response sequence whose first page carries
records and a continuation cursor with the `isLast` flag absent or falsy,
and whose second page carries records but no cursor,
`_fetch_issues_by_jql` returns the normalized records of both pages
exactly once each, in request order, and issues exactly two page requests;
in general, an iteration whose response has zero records, or whose
response lacks a continuation cursor, ends the loop with no further page
request (the final request count is the current one). -/
theorem fetch_two_pages_and_stop :
    (∀ (responses : Nat → HttpResp) (xs0 xs1 : List JVal)
      (ys0 ys1 : List ProcessedIssue) (tok0 lastv0 : JVal),
      (responses 0).status = 200 →
      pyGetD (responses 0).body "issues" (.arr []) = .ok (.arr xs0) →
      xs0 ≠ [] →
      xs0.mapM process_issue = .ok ys0 →
      pyGetD (responses 0).body "nextPageToken" .null = .ok tok0 →
      truthy tok0 = true →
      pyGetD (responses 0).body "isLast" (.bool false) = .ok lastv0 →
      truthy lastv0 = false →
      (responses 1).status = 200 →
      pyGetD (responses 1).body "issues" (.arr []) = .ok (.arr xs1) →
      xs1 ≠ [] →
      xs1.mapM process_issue = .ok ys1 →
      pyGetD (responses 1).body "nextPageToken" .null = .ok .null →
      fetch_issues_by_jql responses = (.ok (ys0 ++ ys1), 2)) ∧
    (∀ (responses : Nat → HttpResp) (fuel pageCount : Nat)
      (acc : List ProcessedIssue),
      (responses pageCount).status = 200 →
      pyGetD (responses pageCount).body "issues" (.arr []) = .ok (.arr []) →
      fetch_issues_loop responses (fuel + 1) pageCount acc =
        (.ok acc, pageCount + 1)) ∧
    (∀ (responses : Nat → HttpResp) (fuel pageCount : Nat)
      (acc : List ProcessedIssue) (xs : List JVal) (ys : List ProcessedIssue),
      (responses pageCount).status = 200 →
      pyGetD (responses pageCount).body "issues" (.arr []) = .ok (.arr xs) →
      xs ≠ [] →
      xs.mapM process_issue = .ok ys →
      pyGetD (responses pageCount).body "nextPageToken" .null = .ok .null →
      fetch_issues_loop responses (fuel + 1) pageCount acc =
        (.ok (acc ++ ys), pageCount + 1)) := by
  refine ⟨?_, fetch_loop_stop_empty, fetch_loop_stop_nocursor⟩
  intro responses xs0 xs1 ys0 ys1 tok0 lastv0 h1 h2 h3 h4 h5 h6 h7 h8 h9 h10 h11 h12 h13
  show fetch_issues_loop responses (999 + 1) 0 [] = _
  rw [fetch_loop_step_cont responses 999 0 [] xs0 ys0 tok0 lastv0 h1 h2 h3 h4 h5 h7,
    if_neg (by simp [h6]), if_neg (by simp [h8]), if_neg (by omega),
    show (999 : Nat) = 998 + 1 from rfl,
    fetch_loop_stop_nocursor responses 998 (0 + 1) ([] ++ ys0) xs1 ys1 h9 h10 h11 h12 h13]
  simp

/-- C1 witness: a concrete two-page endpoint built from the DEMO records. -/
theorem fetch_two_pages_and_stop_witness :
    fetch_issues_by_jql (fun n => if n = 0 then
        ⟨200, .obj [("issues", .arr [demoIssue1]), ("nextPageToken", .str "t1")]⟩
      else if n = 1 then ⟨200, .obj [("issues", .arr [demoIssue2])]⟩
      else ⟨500, .null⟩) =
      (.ok ([⟨.str "DEMO-1", .str "Fix bug", .str "Done", "", none⟩] ++
        [⟨.str "DEMO-2", .str "Add feature", .str "Open", "Needs design",
          some (.str "DEMO-1", .str "Fix bug")⟩]), 2) :=
  fetch_two_pages_and_stop.1 _ [demoIssue1] [demoIssue2] _ _ (.str "t1")
    (.bool false) rfl rfl (by simp) rfl rfl rfl rfl rfl rfl rfl (by simp) rfl rfl

/-- A plain text leaf converts to its literal text. -/
theorem adf_text_plain (s : String) (level : Nat) (li : Option Nat) :
    process_adf_node (.obj [("type", .str "text"), ("text", .str s)]) level li =
      .ok s := rfl

/-- ADF form of a table cell holding one plain-text child; `isHeader`
selects a `tableHeader` or a `tableCell` node. -/
def mkCell (isHeader : Bool) (s : String) : JVal :=
  .obj [("type", .str (if isHeader then "tableHeader" else "tableCell")),
    ("content", .arr [.obj [("type", .str "text"), ("text", .str s)]])]

/-- ADF form of a table row. -/
def mkRow (cells : List (Bool × String)) : JVal :=
  .obj [("type", .str "tableRow"),
    ("content", .arr (cells.map (fun bs => mkCell bs.1 bs.2)))]

/-- ADF form of a table whose cells are plain text, each tagged as header
or body cell. -/
def mkTable (rows : List (List (Bool × String))) : JVal :=
  .obj [("type", .str "table"), ("content", .arr (rows.map mkRow))]

/-- Modelled from the spec (§4.4 Table Sub-Converter), for comparison with
the code: cell text is stripped and internal newlines collapsed, the
column count is the maximum cell count across all rows, shorter rows are
padded with empty-string cells on the right, the first row becomes the
header line followed by a `---` separator per column, every line is
pipe-delimited with leading and trailing pipes, and the table ends with
two newlines. -/
def renderTableSpec (rows : List (List String)) : String :=
  let md := rows.map (List.map (fun s => pyReplaceNl (pyStrip s)))
  let colCount := md.foldl (fun a r => max a r.length) 0
  let padded := md.map (fun r => r ++ List.replicate (colCount - r.length) "")
  let header := padded.headD []
  let lines := ("| " ++ String.intercalate " | " header ++ " |") ::
    ("| " ++ String.intercalate " | " (List.replicate colCount "---") ++ " |") ::
    padded.tail.map (fun r => "| " ++ String.intercalate " | " r ++ " |")
  String.intercalate "\n" lines ++ "\n\n"

theorem mkCell_mapM (cs : List (Bool × String)) :
    (cs.map (fun bs => mkCell bs.1 bs.2)).mapM (fun cell => do
      let kidsV ← pyGetD cell "content" (.arr [])
      let kids ← pyElems kidsV
      let parts ← kids.mapM (fun c => process_adf_node c 0 none)
      pure (pyReplaceNl (pyStrip (String.join parts)))) =
    .ok (cs.map (fun bs => pyReplaceNl (pyStrip bs.2))) := by
  induction cs with
  | nil => rfl
  | cons bs rest ih =>
    have hcell : (do
        let kidsV ← pyGetD (mkCell bs.1 bs.2) "content" (.arr [])
        let kids ← pyElems kidsV
        let parts ← kids.mapM (fun c => process_adf_node c 0 none)
        pure (pyReplaceNl (pyStrip (String.join parts)))
        : Except PyErr String) = .ok (pyReplaceNl (pyStrip bs.2)) := by
      obtain ⟨b, s⟩ := bs
      cases b <;> rfl
    simp only [List.map_cons, List.mapM_cons, hcell, except_bind_ok, ih,
      except_bind_ok]
    rfl

theorem mkRow_mapM (rows : List (List (Bool × String))) :
    (rows.map mkRow).mapM (fun row => do
      let cellsV ← pyGetD row "content" (.arr [])
      let cells ← pyElems cellsV
      cells.mapM (fun cell => do
        let kidsV ← pyGetD cell "content" (.arr [])
        let kids ← pyElems kidsV
        let parts ← kids.mapM (fun c => process_adf_node c 0 none)
        pure (pyReplaceNl (pyStrip (String.join parts))))) =
    .ok (rows.map (fun cells => cells.map (fun bs => pyReplaceNl (pyStrip bs.2)))) := by
  induction rows with
  | nil => rfl
  | cons cells rest ih =>
    have hrow1 : (do
        let cellsV ← pyGetD (mkRow cells) "content" (.arr [])
        let cellList ← pyElems cellsV
        cellList.mapM (fun cell => do
          let kidsV ← pyGetD cell "content" (.arr [])
          let kids ← pyElems kidsV
          let parts ← kids.mapM (fun c => process_adf_node c 0 none)
          pure (pyReplaceNl (pyStrip (String.join parts))))
        : Except PyErr (List String)) =
        .ok (cells.map (fun bs => pyReplaceNl (pyStrip bs.2))) := by
      rw [show pyGetD (mkRow cells) "content" (.arr []) =
          .ok (.arr (cells.map (fun bs => mkCell bs.1 bs.2))) from rfl,
        except_bind_ok,
        show pyElems (.arr (cells.map (fun bs => mkCell bs.1 bs.2))) =
          .ok (cells.map (fun bs => mkCell bs.1 bs.2)) from rfl,
        except_bind_ok, mkCell_mapM]
    simp only [List.map_cons, List.mapM_cons, hrow1, except_bind_ok, ih,
      except_bind_ok]
    rfl

/-- C5: for every plain-text table built with arbitrary header/body cell
tags, the converted table equals the spec-side rendering of the raw cell
strings — independent of the tags, so the first row is unconditionally the
header, the column count is the maximum cell count and shorter rows are
right-padded with empty cells; a table with no rows converts to the empty
string; and the concrete 2-cell/3-cell example produces the 3-column table
with the first row's third cell empty. -/
theorem table_normalization :
    (∀ rows : List (List (Bool × String)), rows ≠ [] →
      process_table_node (mkTable rows) =
        .ok (renderTableSpec (rows.map (List.map Prod.snd)))) ∧
    process_table_node (mkTable []) = .ok "" ∧
    process_table_node (mkTable [[(true, "A"), (true, "B")],
      [(false, "a"), (false, "b"), (false, "c")]]) =
      .ok "| A | B |  |\n| --- | --- | --- |\n| a | b | c |\n\n" := by
  refine ⟨?_, rfl, rfl⟩
  intro rows hrows
  rw [process_table_node_unfold,
    process_table_step_congr (process_adf_fuel (JVal.size (mkTable rows) - 1))
      (fun c l2 li2 => process_adf_node c l2 li2) (mkTable rows)
      (fun c l2 li2 hc => process_adf_fuel_eq c l2 li2 (by omega))]
  unfold process_table_step
  rw [show pyGetD (mkTable rows) "content" (.arr []) =
      .ok (.arr (rows.map mkRow)) from rfl, except_bind_ok]
  have ht : truthy (.arr (rows.map mkRow)) = true := by
    cases rows with
    | nil => exact absurd rfl hrows
    | cons r rest => rfl
  rw [if_neg (by simp [ht])]
  rw [show pyElems (.arr (rows.map mkRow)) = .ok (rows.map mkRow) from rfl,
    except_bind_ok]
  rw [mkRow_mapM, except_bind_ok]
  have hne : (rows.map (fun cells => cells.map
      (fun bs => pyReplaceNl (pyStrip bs.2)))).isEmpty = false := by
    cases rows with
    | nil => exact absurd rfl hrows
    | cons r rest => rfl
  rw [if_neg (by simp [hne])]
  unfold renderTableSpec
  have hfun : ((List.map fun s => pyReplaceNl (pyStrip s)) ∘ List.map Prod.snd) =
      (fun cells : List (Bool × String) =>
        List.map (fun bs => pyReplaceNl (pyStrip bs.2)) cells) := by
    funext cells
    simp [Function.comp, List.map_map]
  simp only [List.map_map, hfun]
  rfl

/-- C5 witness: the general conjunct applied to a concrete tag-mixed
table. -/
theorem table_normalization_witness :
    process_table_node (mkTable [[(true, "x")], [(false, "y"), (true, "z")]]) =
      .ok (renderTableSpec [["x"], ["y", "z"]]) :=
  table_normalization.1 [[(true, "x")], [(false, "y"), (true, "z")]] (by simp)

theorem mapM_ok_of_all {α β : Type} {l : List α} {f : α → Except PyErr β}
    (h : ∀ x ∈ l, ∃ y, f x = .ok y) : ∃ ys, l.mapM f = .ok ys := by
  induction l with
  | nil => exact ⟨[], rfl⟩
  | cons x xs ih =>
    obtain ⟨y, hy⟩ := h x (by simp)
    obtain ⟨ys, hys⟩ := ih (fun z hz => h z (by simp [hz]))
    refine ⟨y :: ys, ?_⟩
    rw [List.mapM_cons, hy, except_bind_ok, hys, except_bind_ok]
    rfl

theorem mapM_ok_str {l : List JVal} {f : JVal → Except PyErr JVal}
    (h : ∀ x ∈ l, ∃ s, f x = .ok (.str s)) :
    ∃ ss : List String, l.mapM f = .ok (ss.map JVal.str) := by
  induction l with
  | nil => exact ⟨[], rfl⟩
  | cons x xs ih =>
    obtain ⟨s, hs⟩ := h x (by simp)
    obtain ⟨ss, hss⟩ := ih (fun z hz => h z (by simp [hz]))
    refine ⟨s :: ss, ?_⟩
    rw [List.mapM_cons, hs, except_bind_ok, hss, except_bind_ok]
    rfl

theorem pyJoin_strs (ss : List String) : ∃ s, pyJoin (ss.map JVal.str) = .ok s := by
  induction ss with
  | nil => exact ⟨"", rfl⟩
  | cons s rest ih =>
    obtain ⟨t, ht⟩ := ih
    exact ⟨s ++ t, by rw [List.map_cons, pyJoin, ht]; rfl⟩

theorem applyMark_str_ok {mkv : List (String × JVal)} {ak2 : List (String × JVal)}
    (hk : getD mkv "attrs" (.obj []) = .obj ak2) (s : String) :
    ∃ t, applyMark (.str s) (.obj mkv) = .ok (.str t) := by
  unfold applyMark
  rw [show pyGetD (.obj mkv) "type" .null = .ok (getD mkv "type" .null) from rfl,
    except_bind_ok]
  split_ifs
  · exact ⟨_, rfl⟩
  · exact ⟨_, rfl⟩
  · exact ⟨_, rfl⟩
  · rw [show pyGetD (.obj mkv) "attrs" (.obj []) =
      .ok (getD mkv "attrs" (.obj [])) from rfl, hk, except_bind_ok,
      show pyGetD (.obj ak2) "href" (.str "") =
        .ok (getD ak2 "href" (.str "")) from rfl, except_bind_ok]
    exact ⟨_, rfl⟩
  · exact ⟨_, rfl⟩
  · exact ⟨_, rfl⟩

theorem markfold_ok {ms : List JVal}
    (hm : ∀ m ∈ ms, ∃ mkv : List (String × JVal), m = .obj mkv ∧
      ∃ ak2 : List (String × JVal), getD mkv "attrs" (.obj []) = .obj ak2) :
    ∀ s : String, ∃ t, ms.foldlM applyMark (.str s) = .ok (.str t) := by
  induction ms with
  | nil => exact fun s => ⟨s, rfl⟩
  | cons m rest ih =>
    intro s
    obtain ⟨mkv, rfl, ak2, hk⟩ := hm m (by simp)
    obtain ⟨t, ht⟩ := applyMark_str_ok hk s
    obtain ⟨u, hu⟩ := ih (fun z hz => hm z (by simp [hz])) t
    exact ⟨u, by rw [List.foldlM_cons, ht, except_bind_ok, hu]⟩

/-- Well-formed ADF values: the node shapes on which the converter performs
no failing Python operation.  Non-object values are well formed (they
convert to the empty string); an object node must have a list `content`
whose elements are well formed, an object `attrs` with an integral (or
boolean) `level` and string-typed emoji text, a string `text`, and list
`marks` of mark objects with object `attrs`; a `codeBlock` node needs
object children with string `text`, and a `table` node needs object rows
whose `content` are lists of object cells.  These are exactly the shapes
that JSON-deserialized ADF documents have. -/
inductive ADFWF : JVal → Prop where
  | prim (v : JVal) (h : ∀ kvs : List (String × JVal), v ≠ .obj kvs) : ADFWF v
  | node (kvs : List (String × JVal)) (cs : List JVal)
      (akvs : List (String × JVal))
      (hc : getD kvs "content" (.arr []) = .arr cs)
      (ha : getD kvs "attrs" (.obj []) = .obj akvs)
      (htext : ∃ s, getD kvs "text" (.str "") = .str s)
      (hmarks : ∃ ms, getD kvs "marks" (.arr []) = .arr ms ∧
        ∀ m ∈ ms, ∃ mkv : List (String × JVal), m = .obj mkv ∧
          ∃ ak2 : List (String × JVal), getD mkv "attrs" (.obj []) = .obj ak2)
      (hlevel : (∃ n : Int, getD akvs "level" (.num 1) = .num n) ∨
        (∃ b, getD akvs "level" (.num 1) = .bool b))
      (hemoji : (truthy (getD akvs "text" .null) = true →
          ∃ s, getD akvs "text" .null = .str s) ∧
        (∃ s, getD akvs "shortName" (.str "") = .str s))
      (hcode : getD kvs "type" (.str "") = .str "codeBlock" →
        ∀ c ∈ cs, ∃ ckv : List (String × JVal), c = .obj ckv ∧
          ∃ s, getD ckv "text" (.str "") = .str s)
      (htab : getD kvs "type" (.str "") = .str "table" →
        ∀ r ∈ cs, ∃ rkv : List (String × JVal), r = .obj rkv ∧
          ∃ cells : List JVal, getD rkv "content" (.arr []) = .arr cells ∧
            ∀ cl ∈ cells, ∃ clkv : List (String × JVal), cl = .obj clkv)
      (hkids : ∀ c ∈ cs, ADFWF c) : ADFWF (.obj kvs)

set_option maxHeartbeats 3200000 in
theorem adfwf_fuel_ok : ∀ f : Nat,
    (∀ node, ADFWF node → ∀ (level : Nat) (li : Option Nat), JVal.size node ≤ f →
      ∃ s, process_adf_fuel f node level li = .ok s) ∧
    (∀ (kvs : List (String × JVal)) (cs : List JVal),
      getD kvs "type" (.str "") = .str "table" →
      getD kvs "content" (.arr []) = .arr cs →
      (∀ r ∈ cs, ∃ rkv : List (String × JVal), r = .obj rkv ∧
        ∃ cells : List JVal, getD rkv "content" (.arr []) = .arr cells ∧
          ∀ cl ∈ cells, ∃ clkv : List (String × JVal), cl = .obj clkv) →
      (∀ r ∈ cs, ADFWF r) →
      JVal.size (.obj kvs) ≤ f + 1 →
      ∃ s, process_table_fuel f (.obj kvs) = .ok s) := by
  intro f
  induction f using Nat.strong_induction_on with
  | _ f ih =>
    constructor
    · intro node hwf level li hle
      have hpos := JVal.size_pos node
      obtain ⟨f0, rfl⟩ : ∃ f0, f = f0 + 1 := ⟨f - 1, by omega⟩
      cases hwf with
      | prim _ h =>
        cases node with
        | obj kvs => exact absurd rfl (h kvs)
        | null => exact ⟨"", rfl⟩
        | bool b => exact ⟨"", rfl⟩
        | num n => exact ⟨"", rfl⟩
        | str s => exact ⟨"", rfl⟩
        | arr xs => exact ⟨"", rfl⟩
      | node kvs cs akvs hc ha htext hmarks hlevel hemoji hcode htab hkids =>
        have hpe : pyElems (getD kvs "content" (.arr [])) = .ok cs := by
          rw [hc]
          rfl
        have hkid : ∀ c ∈ cs, ∀ (l2 : Nat) (li2 : Option Nat),
            ∃ y, process_adf_fuel f0 c l2 li2 = .ok y := by
          intro c hcmem l2 li2
          have hlt := getD_elem_size hpe hcmem
          exact (ih f0 (by omega)).1 c (hkids c hcmem) l2 li2 (by omega)
        show ∃ s, process_adf_step (process_adf_fuel f0) (process_table_fuel f0)
          (.obj kvs) level li = .ok s
        unfold process_adf_step
        dsimp only
        by_cases h1 : getD kvs "type" (.str "") = .str "doc"
        case pos =>
          simp only [if_pos h1]
          rw [hpe, except_bind_ok]
          obtain ⟨parts, hparts⟩ := mapM_ok_of_all (fun c hcmem => hkid c hcmem level none)
          rw [hparts, except_bind_ok]
          exact ⟨_, rfl⟩
        case neg =>
          simp only [if_neg h1]
          by_cases h2 : getD kvs "type" (.str "") = .str "paragraph"
          case pos =>
            simp only [if_pos h2]
            rw [hpe, except_bind_ok]
            obtain ⟨parts, hparts⟩ := mapM_ok_of_all (fun c hcmem => hkid c hcmem level none)
            rw [hparts, except_bind_ok]
            exact ⟨_, rfl⟩
          case neg =>
            simp only [if_neg h2]
            by_cases h3 : getD kvs "type" (.str "") = .str "heading"
            case pos =>
              simp only [if_pos h3]
              rw [ha, show pyGetD (.obj akvs) "level" (.num 1) =
                  .ok (getD akvs "level" (.num 1)) from rfl, except_bind_ok, hpe, except_bind_ok]
              obtain ⟨parts, hparts⟩ := mapM_ok_of_all (fun c hcmem => hkid c hcmem level none)
              rw [hparts, except_bind_ok]
              rcases hlevel with ⟨n, hn⟩ | ⟨b, hb⟩
              · rw [hn, show pyStrMul "#" (.num n) = .ok (strRepeat "#" n.toNat) from rfl,
                  except_bind_ok]
                exact ⟨_, rfl⟩
              · rw [hb, show pyStrMul "#" (.bool b) = .ok (if b then "#" else "") from rfl,
                  except_bind_ok]
                exact ⟨_, rfl⟩
            case neg =>
              simp only [if_neg h3]
              by_cases h4 : getD kvs "type" (.str "") = .str "bulletList"
              case pos =>
                simp only [if_pos h4]
                rw [hpe, except_bind_ok]
                obtain ⟨parts, hparts⟩ := mapM_ok_of_all (fun c hcmem => hkid c hcmem level none)
                rw [hparts, except_bind_ok]
                exact ⟨_, rfl⟩
              case neg =>
                simp only [if_neg h4]
                by_cases h5 : getD kvs "type" (.str "") = .str "orderedList"
                case pos =>
                  simp only [if_pos h5]
                  rw [hpe, except_bind_ok]
                  have hoek : ∀ ic ∈ cs.enum,
                      ∃ y, process_adf_fuel f0 ic.2 level (some (ic.1 + 1)) = .ok y := by
                    intro ic hic
                    have hmem : ic.2 ∈ cs := by
                      have h5m := List.mem_map_of_mem Prod.snd hic
                      rwa [List.enum_map_snd] at h5m
                    exact hkid ic.2 hmem level (some (ic.1 + 1))
                  obtain ⟨parts, hparts⟩ := mapM_ok_of_all hoek
                  rw [hparts, except_bind_ok]
                  exact ⟨_, rfl⟩
                case neg =>
                  simp only [if_neg h5]
                  by_cases h6 : getD kvs "type" (.str "") = .str "listItem"
                  case pos =>
                    simp only [if_pos h6]
                    rw [hpe, except_bind_ok]
                    obtain ⟨parts, hparts⟩ := mapM_ok_of_all (fun c hcmem => hkid c hcmem (level + 1) none)
                    rw [hparts, except_bind_ok]
                    cases li with
                    | some i => exact ⟨_, rfl⟩
                    | none => exact ⟨_, rfl⟩
                  case neg =>
                    simp only [if_neg h6]
                    by_cases h7 : getD kvs "type" (.str "") = .str "codeBlock"
                    case pos =>
                      simp only [if_pos h7]
                      rw [hpe, except_bind_ok]
                      have hcvals : ∀ c ∈ cs, ∃ s2,
                          pyGetD c "text" (.str "") = .ok (.str s2) := by
                        intro c hcmem
                        obtain ⟨ckv, rfl, s2, hs2⟩ := hcode h7 c hcmem
                        exact ⟨s2, by rw [show pyGetD (.obj ckv) "text" (.str "") =
                          .ok (getD ckv "text" (.str "")) from rfl, hs2]⟩
                      obtain ⟨ss, hss⟩ := mapM_ok_str hcvals
                      rw [hss, except_bind_ok]
                      obtain ⟨js, hjs⟩ := pyJoin_strs ss
                      rw [hjs, except_bind_ok, ha, show pyGetD (.obj akvs) "language" (.str "") =
                        .ok (getD akvs "language" (.str "")) from rfl, except_bind_ok]
                      exact ⟨_, rfl⟩
                    case neg =>
                      simp only [if_neg h7]
                      by_cases h8 : getD kvs "type" (.str "") = .str "blockquote"
                      case pos =>
                        simp only [if_pos h8]
                        rw [hpe, except_bind_ok]
                        obtain ⟨parts, hparts⟩ := mapM_ok_of_all (fun c hcmem => hkid c hcmem level none)
                        rw [hparts, except_bind_ok]
                        exact ⟨_, rfl⟩
                      case neg =>
                        simp only [if_neg h8]
                        by_cases h9 : getD kvs "type" (.str "") = .str "rule"
                        case pos =>
                          simp only [if_pos h9]
                          exact ⟨_, rfl⟩
                        case neg =>
                          simp only [if_neg h9]
                          by_cases h10 : getD kvs "type" (.str "") = .str "hardBreak"
                          case pos =>
                            simp only [if_pos h10]
                            exact ⟨_, rfl⟩
                          case neg =>
                            simp only [if_neg h10]
                            by_cases h11 : getD kvs "type" (.str "") = .str "table"
                            case pos =>
                              simp only [if_pos h11]
                              exact (ih f0 (by omega)).2 kvs cs h11 hc (htab h11) hkids (by omega)
                            case neg =>
                              simp only [if_neg h11]
                              by_cases h12 : getD kvs "type" (.str "") = .str "tableRow" ∨ getD kvs "type" (.str "") = .str "tableCell" ∨ getD kvs "type" (.str "") = .str "tableHeader"
                              case pos =>
                                simp only [if_pos h12]
                                rw [hpe, except_bind_ok]
                                obtain ⟨parts, hparts⟩ := mapM_ok_of_all (fun c hcmem => hkid c hcmem level none)
                                rw [hparts, except_bind_ok]
                                exact ⟨_, rfl⟩
                              case neg =>
                                simp only [if_neg h12]
                                by_cases h13 : getD kvs "type" (.str "") = .str "text"
                                case pos =>
                                  simp only [if_pos h13]
                                  obtain ⟨ms, hm1, hm2⟩ := hmarks
                                  obtain ⟨ts, hts⟩ := htext
                                  rw [show pyElems (getD kvs "marks" (.arr [])) = .ok ms from by rw [hm1]; rfl,
                                    except_bind_ok, hts]
                                  obtain ⟨t, hfold⟩ := markfold_ok hm2 ts
                                  rw [hfold, except_bind_ok]
                                  exact ⟨t, rfl⟩
                                case neg =>
                                  simp only [if_neg h13]
                                  by_cases h14 : getD kvs "type" (.str "") = .str "mention"
                                  case pos =>
                                    simp only [if_pos h14]
                                    rw [ha, show pyGetD (.obj akvs) "displayName" (.str "unknown") =
                                        .ok (getD akvs "displayName" (.str "unknown")) from rfl, except_bind_ok,
                                      show pyGetD (.obj akvs) "text" (getD akvs "displayName" (.str "unknown")) =
                                        .ok (getD akvs "text" (getD akvs "displayName" (.str "unknown"))) from rfl,
                                      except_bind_ok]
                                    exact ⟨_, rfl⟩
                                  case neg =>
                                    simp only [if_neg h14]
                                    by_cases h15 : getD kvs "type" (.str "") = .str "emoji"
                                    case pos =>
                                      simp only [if_pos h15]
                                      rw [ha, show pyGetD (.obj akvs) "text" .null =
                                        .ok (getD akvs "text" .null) from rfl, except_bind_ok]
                                      by_cases htr : truthy (getD akvs "text" .null) = true
                                      · obtain ⟨s2, hs2⟩ := hemoji.1 htr
                                        rw [if_pos htr, hs2]
                                        exact ⟨s2, rfl⟩
                                      · rw [if_neg htr, show pyGetD (.obj akvs) "shortName" (.str "") =
                                          .ok (getD akvs "shortName" (.str "")) from rfl]
                                        obtain ⟨s2, hs2⟩ := hemoji.2
                                        rw [hs2]
                                        exact ⟨s2, rfl⟩
                                    case neg =>
                                      simp only [if_neg h15]
                                      by_cases h16 : getD kvs "type" (.str "") = .str "inlineCard" ∨ getD kvs "type" (.str "") = .str "blockCard"
                                      case pos =>
                                        simp only [if_pos h16]
                                        rw [ha, show pyGetD (.obj akvs) "url" (.str "") =
                                          .ok (getD akvs "url" (.str "")) from rfl, except_bind_ok]
                                        exact ⟨_, rfl⟩
                                      case neg =>
                                        simp only [if_neg h16]
                                        by_cases h17 : getD kvs "type" (.str "") = .str "mediaSingle" ∨ getD kvs "type" (.str "") = .str "media"
                                        case pos =>
                                          simp only [if_pos h17]
                                          exact ⟨_, rfl⟩
                                        case neg =>
                                          simp only [if_neg h17]
                                          by_cases h18 : getD kvs "type" (.str "") = .str "expand" ∨ getD kvs "type" (.str "") = .str "nestedExpand"
                                          case pos =>
                                            simp only [if_pos h18]
                                            rw [ha, show pyGetD (.obj akvs) "title" (.str "Details") =
                                                .ok (getD akvs "title" (.str "Details")) from rfl, except_bind_ok, hpe,
                                              except_bind_ok]
                                            obtain ⟨parts, hparts⟩ := mapM_ok_of_all (fun c hcmem => hkid c hcmem level none)
                                            rw [hparts, except_bind_ok]
                                            exact ⟨_, rfl⟩
                                          case neg =>
                                            simp only [if_neg h18]
                                            rw [hpe, except_bind_ok]
                                            obtain ⟨parts, hparts⟩ := mapM_ok_of_all (fun c hcmem => hkid c hcmem level none)
                                            rw [hparts, except_bind_ok]
                                            exact ⟨_, rfl⟩
    · intro kvs cs htype hc hrows hkidswf hle
      have h2 := type_table_size htype
      obtain ⟨f0, rfl⟩ : ∃ f0, f = f0 + 1 := ⟨f - 1, by omega⟩
      show ∃ s, process_table_step (process_adf_fuel f0) (.obj kvs) = .ok s
      unfold process_table_step
      rw [show pyGetD (.obj kvs) "content" (.arr []) =
        .ok (getD kvs "content" (.arr [])) from rfl, hc, except_bind_ok]
      have hpe2 : pyElems (getD kvs "content" (.arr [])) = .ok cs := by
        rw [hc]
        rfl
      by_cases htr : truthy (.arr cs) = true
      case neg =>
        rw [if_pos htr]
        exact ⟨"", rfl⟩
      case pos =>
        rw [if_neg (not_not_intro htr), show pyElems (.arr cs) = .ok cs from rfl,
          except_bind_ok]
        have hrowok : ∀ r ∈ cs, ∃ out, (do
            let cellsV ← pyGetD r "content" (.arr [])
            let cells ← pyElems cellsV
            cells.mapM (fun cell => do
              let kidsV ← pyGetD cell "content" (.arr [])
              let kids ← pyElems kidsV
              let parts ← kids.mapM (fun c => process_adf_fuel f0 c 0 none)
              pure (pyReplaceNl (pyStrip (String.join parts))))
            : Except PyErr (List String)) = .ok out := by
          intro r hr
          have hszr := getD_elem_size hpe2 hr
          obtain ⟨rkv, rfl, cells, hcells, hclobj⟩ := hrows r hr
          have hwr := hkidswf _ hr
          cases hwr with
          | prim _ hpr => exact absurd rfl (hpr rkv)
          | node _ cs2 akvs2 hc2 ha2 htext2 hmarks2 hlevel2 hemoji2 hcode2 htab2 hkids2 =>
            have hcs2 : cs2 = cells := by
              have hq := hc2.symm.trans hcells
              injection hq
            subst hcs2
            rw [show pyGetD (.obj rkv) "content" (.arr []) =
              .ok (getD rkv "content" (.arr [])) from rfl, hcells, except_bind_ok,
              show pyElems (.arr cs2) = .ok cs2 from rfl, except_bind_ok]
            apply mapM_ok_of_all
            intro cl hcl
            have hszcl := getD_elem_size (show pyElems (getD rkv "content" (.arr [])) =
              .ok cs2 from by rw [hcells]; rfl) hcl
            obtain ⟨clkv, rfl⟩ := hclobj cl hcl
            have hwcl := hkids2 _ hcl
            cases hwcl with
            | prim _ hpc => exact absurd rfl (hpc clkv)
            | node _ kidsc akvs3 hc3 ha3 htext3 hmarks3 hlevel3 hemoji3 hcode3 htab3 hkids3 =>
              rw [show pyGetD (.obj clkv) "content" (.arr []) =
                .ok (getD clkv "content" (.arr [])) from rfl, hc3, except_bind_ok,
                show pyElems (.arr kidsc) = .ok kidsc from rfl, except_bind_ok]
              have hpe3 : pyElems (getD clkv "content" (.arr [])) = .ok kidsc := by
                rw [hc3]
                rfl
              have hkidok : ∀ kid ∈ kidsc,
                  ∃ y, process_adf_fuel f0 kid 0 none = .ok y := by
                intro kid hk2
                have hszk := getD_elem_size hpe3 hk2
                exact (ih f0 (by omega)).1 kid (hkids3 kid hk2) 0 none (by omega)
              obtain ⟨parts, hparts⟩ := mapM_ok_of_all hkidok
              rw [hparts, except_bind_ok]
              exact ⟨_, rfl⟩
        obtain ⟨mdRows, hmd⟩ := mapM_ok_of_all hrowok
        rw [hmd, except_bind_ok]
        by_cases he : mdRows.isEmpty = true
        · rw [if_pos he]
          exact ⟨"", rfl⟩
        · rw [if_neg he]
          exact ⟨_, rfl⟩

/-- C6 counterexample: contrary to the claim that malformed node shapes
are handled without exceptions, a code block whose child is not a dict
raises `AttributeError` (`child.get` on an int), a table whose row is not
a dict raises `AttributeError` (`row.get`), and a node whose `content` is
not iterable raises `TypeError` (`for child in content`). -/
theorem converter_malformed_raises :
    process_adf_node (.obj [("type", .str "codeBlock"),
      ("content", .arr [.num 1])]) 0 none = .error .attributeError ∧
    process_table_node (.obj [("type", .str "table"),
      ("content", .arr [.num 1])]) = .error .attributeError ∧
    process_adf_node (.obj [("type", .str "doc"), ("content", .num 5)]) 0 none =
      .error .typeError :=
  ⟨rfl, rfl, rfl⟩

/-- C6 (amended): a non-dict node converts to the empty string without
raising, and on every well-formed ADF tree (`ADFWF`) the converter never
raises; the original claim's further assertion that malformed shapes such
as code-block or table children that are not dicts, or non-iterable
`content`, are also handled without exceptions is refuted by the
counterexample. -/
theorem converter_nonobject_empty_and_wf_total :
    (∀ (v : JVal) (level : Nat) (li : Option Nat),
      (∀ kvs : List (String × JVal), v ≠ .obj kvs) →
      process_adf_node v level li = .ok "") ∧
    (∀ t, ADFWF t → ∀ (level : Nat) (li : Option Nat),
      ∃ s, process_adf_node t level li = .ok s) := by
  constructor
  · intro v level li h
    cases v with
    | obj kvs => exact absurd rfl (h kvs)
    | null => rfl
    | bool b => rfl
    | num n => rfl
    | str s => rfl
    | arr xs =>
      show process_adf_fuel (JVal.size (.arr xs)) (.arr xs) level li = .ok ""
      rw [show JVal.size (.arr xs) = sizeItems xs + 1 from by
        simp [JVal.size]; omega]
      rfl
  · intro t hwf level li
    exact (adfwf_fuel_ok (JVal.size t)).1 t hwf level li le_rfl

/-- C6 witness: the amended theorem applied to a non-dict value and to a
concrete well-formed text node. -/
theorem converter_total_witness :
    process_adf_node (.num 7) 0 none = .ok "" ∧
    ∃ s, process_adf_node (.obj [("type", .str "text"),
      ("text", .str "X")]) 0 none = .ok s := by
  constructor
  · exact converter_nonobject_empty_and_wf_total.1 (.num 7) 0 none
      (fun kvs h => by cases h)
  · refine converter_nonobject_empty_and_wf_total.2 _ ?_ 0 none
    refine ADFWF.node [("type", .str "text"), ("text", .str "X")] [] []
      rfl rfl ⟨"X", rfl⟩ ⟨[], rfl, by simp⟩ (Or.inl ⟨1, rfl⟩)
      ⟨?_, ⟨"", rfl⟩⟩ ?_ ?_ ?_
    · intro h
      exact absurd h (by decide)
    · intro h
      exact absurd h (by decide)
    · intro h
      exact absurd h (by decide)
    · intro c hc
      exact absurd hc (List.not_mem_nil c)
